import Mathlib

/-!
Shallow embedding of the panda compiler's lexical scanner
(src/compiler/scanner.go) and proofs about it.

The source buffer is a byte sequence, modelled as `List Nat`; runes are
Go `rune` = int32, modelled as `Int` (no arithmetic here ever approaches
2^31, so no wrap-around modelling is needed).  Each Go method that
mutates the receiver becomes a function `Scanner -> ... × Scanner`.
Each Go `for` loop becomes a fuel-indexed auxiliary function; the
wrapper passes `mu s + 1` fuel, where `mu` is the loop variant
`2*(len src - readOffset) + (1 if char ≠ eof)`: every iteration of every
loop strictly decreases `mu`, so this fuel is never exhausted and the
functions compute exactly what the Go loops compute (the decrease is
proved below and is also the content of the termination claim).
-/

/-- Diagnostics of the scanner, one constructor per distinct message the
Go code passes to `s.error`.  `illegalCharInEscape` carries the offending
code point, which the Go code interpolates into the message with `%#U`. -/
inductive ErrMsg where
  | illegalNUL
  | illegalUTF8
  | illegalBOM
  | commentNotTerminated
  | invalidInteger
  | illegalNumber
  | invalidRadixPoint
  | floatNoDigitsAfterPoint
  | unknownEscape
  | escapeNotTerminated
  | illegalCharInEscape (c : Int)
  | invalidUnicodeCodePoint
  | stringNotTerminated
  | runeNotTerminated
  | rawStringNotTerminated
  | illegalCharLiteral
  | invalidMetaName
  | invalidToken
  deriving DecidableEq, Repr

/-- Modelled from the spec: the token-kind enumeration of the repository's
token package, which is not under src/ (scanner.go only names its
constants).  Per spec §6: identifier, keyword (closed table, the keyword
text attached), integer, float, string, raw-string, char, comment,
meta-annotation, end-of-input, illegal. -/
inductive Token where
  | ILLEGAL
  | EOF
  | IDENT
  | KEYWORD (kw : List Nat)
  | INT
  | FLOAT
  | STRING
  | RAW_STRING
  | CHAR
  | COMMENT
  | META
  deriving DecidableEq, Repr

/-- Scanner state: the fields of Go's `Scanner` struct.  `file` and `dir`
are omitted (their only uses in scanner.go are commented out and the
`File` type is not under src/).  `errIsSet` models `err != nil`;
`errors` journals every `s.error(offset, msg)` call (the Go code prints
the message and increments `ErrorCount` there); `callbackCalls` journals
invocations of the caller-supplied `ErrorHandler`. -/
structure Scanner where
  src : List Nat
  errIsSet : Bool
  ErrorCount : Nat
  scanComments : Bool
  flags : List (List Nat)
  flagStarted : Bool
  char : Int
  offset : Nat
  readOffset : Nat
  errors : List (Nat × ErrMsg)
  callbackCalls : List (Nat × ErrMsg)
  deriving DecidableEq, Repr

/-- Go `eof = -1`. -/
def eof : Int := -1

/-- Go `bom = 0xFEFF`. -/
def bom : Int := 0xFEFF

/-- Go `utf8.RuneError`. -/
def RuneError : Int := 0xFFFD

/-- Go `unicode.MaxRune`. -/
def MaxRune : Nat := 0x10FFFF

/-- Embedding of Go's `utf8.DecodeRune` on a byte slice: returns the
decoded code point and its byte width, `(RuneError, 1)` on an invalid
encoding, `(RuneError, 0)` on empty input.  The first-byte table and
accept ranges follow the Go standard library. -/
def utf8DecodeRune (p : List Nat) : Int × Nat :=
  match p with
  | [] => (RuneError, 0)
  | p0 :: rest =>
    if p0 < 0x80 then ((p0 : Int), 1)
    else if p0 < 0xC2 ∨ 0xF4 < p0 then (RuneError, 1)
    else if p0 < 0xE0 then
      match rest with
      | [] => (RuneError, 1)
      | b1 :: _ =>
        if 0x80 ≤ b1 ∧ b1 ≤ 0xBF then
          (((0x40 * (p0 % 0x20) + b1 % 0x40 : Nat) : Int), 2)
        else (RuneError, 1)
    else if p0 < 0xF0 then
      match rest with
      | b1 :: b2 :: _ =>
        if (if p0 = 0xE0 then 0xA0 ≤ b1 ∧ b1 ≤ 0xBF
            else if p0 = 0xED then 0x80 ≤ b1 ∧ b1 ≤ 0x9F
            else 0x80 ≤ b1 ∧ b1 ≤ 0xBF) then
          if 0x80 ≤ b2 ∧ b2 ≤ 0xBF then
            (((0x1000 * (p0 % 0x10) + 0x40 * (b1 % 0x40) + b2 % 0x40 : Nat) : Int), 3)
          else (RuneError, 1)
        else (RuneError, 1)
      | _ => (RuneError, 1)
    else
      match rest with
      | b1 :: b2 :: b3 :: _ =>
        if (if p0 = 0xF0 then 0x90 ≤ b1 ∧ b1 ≤ 0xBF
            else if p0 = 0xF4 then 0x80 ≤ b1 ∧ b1 ≤ 0x8F
            else 0x80 ≤ b1 ∧ b1 ≤ 0xBF) then
          if 0x80 ≤ b2 ∧ b2 ≤ 0xBF then
            if 0x80 ≤ b3 ∧ b3 ≤ 0xBF then
              (((0x40000 * (p0 % 8) + 0x1000 * (b1 % 0x40) + 0x40 * (b2 % 0x40) + b3 % 0x40 : Nat) : Int), 4)
            else (RuneError, 1)
          else (RuneError, 1)
        else (RuneError, 1)
      | _ => (RuneError, 1)

/-- Go slice expression `src[a:b]` (used by the literal scanners as
`string(s.src[offset:s.offset])`), totalized by truncation. -/
def byteSlice (src : List Nat) (a b : Nat) : List Nat := (src.drop a).take (b - a)

/-- Go `isLetter`: `char == '_' || 'a' <= char && char <= 'z' || 'A' <= char && char <= 'Z'`. -/
def isLetter (char : Int) : Prop :=
  char = 0x5F ∨ (0x61 ≤ char ∧ char ≤ 0x7A) ∨ (0x41 ≤ char ∧ char ≤ 0x5A)

instance (char : Int) : Decidable (isLetter char) := by
  unfold isLetter; infer_instance

/-- Go `isDecimal`: `'0' <= char && char <= '9'`. -/
def isDecimal (char : Int) : Prop := 0x30 ≤ char ∧ char ≤ 0x39

instance (char : Int) : Decidable (isDecimal char) := by
  unfold isDecimal; infer_instance

/-- Bitwise or on Go `rune` (int32), on the two's-complement
representation: the standard `Int.lor`. -/
def intLor (a b : Int) : Int :=
  match a, b with
  | .ofNat m, .ofNat n => .ofNat (m ||| n)
  | .ofNat m, .negSucc n => .negSucc (Nat.ldiff n m)
  | .negSucc m, .ofNat n => .negSucc (Nat.ldiff m n)
  | .negSucc m, .negSucc n => .negSucc (Nat.land m n)

/-- Go `lower`: `('a' - 'A') | char`, a bitwise or on the rune. -/
def lower (char : Int) : Int := intLor 0x20 char

/-- Go `digitVal`: digit value of a code point, `16` when it is no digit. -/
def digitVal (char : Int) : Int :=
  if 0x30 ≤ char ∧ char ≤ 0x39 then char - 0x30
  else if 0x61 ≤ lower char ∧ lower char ≤ 0x66 then lower char - 0x61 + 10
  else 16

/-- Loop variant for every scanner loop: strictly decreases at each call
of `next` from a non-eof code point (proved below), and never increases. -/
def mu (s : Scanner) : Nat :=
  2 * (s.src.length - s.readOffset) + (if s.char = eof then 0 else 1)

/-- Go `Scanner.error`: prints the message, would invoke the handler —
but the invocation `s.err(...)` is commented out in the source, so only
the journal of produced diagnostics and the count grow, never
`callbackCalls` — and increments `ErrorCount`. -/
def Scanner.error (s : Scanner) (offset : Nat) (msg : ErrMsg) : Scanner :=
  { s with errors := s.errors ++ [(offset, msg)], ErrorCount := s.ErrorCount + 1 }

/-- Go `Scanner.next`: advance to the next code point.  Sets
`offset := readOffset`, then reads one byte directly if ASCII, decodes
UTF-8 otherwise (diagnosing NUL, invalid encodings and a non-leading
BOM), and past the end of input sets `offset := len(src)` and
`char := eof`. -/
def Scanner.next (s : Scanner) : Scanner :=
  if s.readOffset < s.src.length then
    let b := s.src.getD s.readOffset 0
    if b = 0 then
      { s.error s.readOffset .illegalNUL with
          offset := s.readOffset, readOffset := s.readOffset + 1, char := (b : Int) }
    else if 0x80 ≤ b then
      let rw := utf8DecodeRune (s.src.drop s.readOffset)
      let s1 :=
        if rw.1 = RuneError ∧ rw.2 = 1 then s.error s.readOffset .illegalUTF8
        else if rw.1 = bom ∧ 0 < s.readOffset then s.error s.readOffset .illegalBOM
        else s
      { s1 with offset := s.readOffset, readOffset := s.readOffset + rw.2, char := rw.1 }
    else
      { s with offset := s.readOffset, readOffset := s.readOffset + 1, char := (b : Int) }
  else
    { s with offset := s.src.length, char := eof }

/-- Go `Scanner.peek`: the next raw byte, or 0 at end of input. -/
def Scanner.peek (s : Scanner) : Nat :=
  if s.readOffset < s.src.length then s.src.getD s.readOffset 0 else 0

/-- Go `NewScanner` (the `file` argument is dropped: its uses in
scanner.go are commented out): initial state, one `next`, and a second
`next` past a leading byte-order mark. -/
def NewScanner (src : List Nat) (errSet : Bool) (scanComment : Bool)
    (flags : List (List Nat)) : Scanner :=
  let s : Scanner :=
    { src := src, errIsSet := errSet, ErrorCount := 0,
      scanComments := scanComment, flags := flags, flagStarted := false,
      char := 0x20, offset := 0, readOffset := 0,
      errors := [], callbackCalls := [] }
  let s := s.next
  if s.char = bom then s.next else s

/-- Fuel-indexed whitespace loop at the top of Go `Scan`:
`for s.char == ' ' || s.char == '\t' || s.char == '\n' || s.char == '\r' { s.next() }`. -/
def Scanner.skipWhitespaceAux : Nat → Scanner → Scanner
  | 0, s => s
  | n + 1, s =>
    if s.char = 0x20 ∨ s.char = 0x09 ∨ s.char = 0x0A ∨ s.char = 0x0D then
      skipWhitespaceAux n s.next
    else s

def Scanner.skipWhitespace (s : Scanner) : Scanner := s.skipWhitespaceAux (mu s + 1)

/-- Loop of the line-comment arm of Go `scanComment`:
`for s.char != '\n' && s.char >= 0 { s.next() }`. -/
def Scanner.lineCommentAux : Nat → Scanner → Scanner
  | 0, s => s
  | n + 1, s =>
    if s.char ≠ 0x0A ∧ 0 ≤ s.char then lineCommentAux n s.next else s

/-- Loop of the block-comment arm of Go `scanComment`; returns the
`terminated` flag. -/
def Scanner.blockCommentAux : Nat → Scanner → Bool × Scanner
  | 0, s => (false, s)
  | n + 1, s =>
    if 0 ≤ s.char then
      let char := s.char
      let s := s.next
      if char = 0x2A ∧ s.char = 0x2F then (true, s.next)
      else blockCommentAux n s
    else (false, s)

/-- Go `scanComment` (the initial `/` is already consumed; the current
code point is `/` or `*`). -/
def Scanner.scanComment (s : Scanner) : List Nat × Scanner :=
  let offset := s.offset - 1
  if s.char = 0x2F then
    let s1 := s.next.lineCommentAux (mu s.next + 1)
    (byteSlice s1.src offset s1.offset, s1)
  else
    let s1 := s.next
    let ts := s1.blockCommentAux (mu s1 + 1)
    let s2 := if ts.1 then ts.2 else ts.2.error offset .commentNotTerminated
    (byteSlice s2.src offset s2.offset, s2)

/-- Loop of Go `scanIdentifier`:
`for s.isLetter(s.char) || s.isDecimal(s.char) { s.next() }`. -/
def Scanner.scanIdentifierAux : Nat → Scanner → Scanner
  | 0, s => s
  | n + 1, s =>
    if isLetter s.char ∨ isDecimal s.char then scanIdentifierAux n s.next else s

def Scanner.scanIdentifier (s : Scanner) : List Nat × Scanner :=
  let offset := s.offset
  let s1 := s.scanIdentifierAux (mu s + 1)
  (byteSlice s1.src offset s1.offset, s1)

/-- Loop of Go `scanDigits`: `for s.digitVal(s.char) < base { s.next() }`. -/
def Scanner.scanDigitsAux : Nat → Scanner → Nat → Scanner
  | 0, s, _ => s
  | n + 1, s, base =>
    if digitVal s.char < (base : Int) then scanDigitsAux n s.next base else s

def Scanner.scanDigits (s : Scanner) (base : Nat) : Scanner :=
  s.scanDigitsAux (mu s + 1) base

/-- Tail of the `0x`/`0b`/`0o` arm of Go `scanNumber` (runs only when the
base switch matched): consume the base letter, scan the digits, then the
two diagnostics `illegal number` (nothing after the prefix) and
`invalid radix point` (a `.` after a non-decimal base). -/
def Scanner.numExtra (s : Scanner) (offset : Nat) (base : Nat) : Token × Scanner :=
  let s1 := s.next
  let s2 := s1.scanDigits base
  let ts :=
    if (s2.offset : Int) - (offset : Int) ≤ 2 then
      (Token.ILLEGAL, s2.error offset .illegalNumber)
    else (Token.INT, s2)
  if ts.2.char = 0x2E then (Token.ILLEGAL, ts.2.error offset .invalidRadixPoint)
  else ts

/-- Integer part of Go `scanNumber` (everything before the final float
check): leading-zero base detection with the `invalid integer`
diagnostic, or a run of decimal digits. -/
def Scanner.numInt (s : Scanner) (offset : Nat) : Token × Scanner :=
  if s.char ≠ 0x2E then
    if s.char = 0x30 then
      let s1 := s.next
      if s1.char ≠ 0x2E then
        if lower s1.char = 0x78 then s1.numExtra offset 16
        else if lower s1.char = 0x62 then s1.numExtra offset 2
        else if lower s1.char = 0x6F then s1.numExtra offset 8
        else (Token.ILLEGAL, s1.error offset .invalidInteger)
      else (Token.INT, s1)
    else (Token.INT, s.scanDigits 10)
  else (Token.INT, s)

/-- Go `scanNumber`: integer part, then if the current code point is `.`
a float: consume the `.` and a run of decimal digits, diagnosing
`float has no digits after .` when the fraction is empty. -/
def Scanner.scanNumber (s : Scanner) : (Token × List Nat) × Scanner :=
  let offset := s.offset
  let ts := s.numInt offset
  let ts2 :=
    if ts.2.char = 0x2E then
      let offsetFraction := ts.2.offset
      let s1 := ts.2.next
      let s2 := s1.scanDigits 10
      if (offsetFraction : Int) = (s2.offset : Int) - 1 then
        (Token.ILLEGAL, s2.error offset .floatNoDigitsAfterPoint)
      else (Token.FLOAT, s2)
    else ts
  ((ts2.1, byteSlice ts2.2.src offset ts2.2.offset), ts2.2)

/-- Digit loop of Go `scanEscape`: consumes exactly `n` digits of the
given base into the accumulator `x` (a `uint32` in Go; the largest
possible value, 8 hex digits, is 0xFFFFFFFF, so plain `Nat` arithmetic
is exact), failing with `illegal character %#U in escape sequence` or
`escape sequence not terminated` on anything else. -/
def Scanner.escLoop : Nat → Scanner → Nat → Nat → (Bool × Nat) × Scanner
  | 0, s, _, x => ((true, x), s)
  | n + 1, s, base, x =>
    if digitVal s.char < (base : Int) then
      escLoop n s.next base (x * base + (digitVal s.char).toNat)
    else
      let msg := if s.char < 0 then ErrMsg.escapeNotTerminated
                 else ErrMsg.illegalCharInEscape s.char
      ((false, x), s.error s.offset msg)

/-- Tail of Go `scanEscape` after the switch selected `n`, `base`, `max`:
run the digit loop, then reject values above `max` or in the UTF-16
surrogate range `[0xD800, 0xE000)`. -/
def Scanner.escFinish (s : Scanner) (offset n base mx : Nat) : Bool × Scanner :=
  let r := s.escLoop n base 0
  if r.1.1 then
    if r.1.2 > mx ∨ (0xD800 ≤ r.1.2 ∧ r.1.2 < 0xE000) then
      (false, r.2.error offset .invalidUnicodeCodePoint)
    else (true, r.2)
  else (false, r.2)

/-- Go `scanEscape`: validate one escape sequence after a `\` inside a
string or char literal delimited by `quote`. -/
def Scanner.scanEscape (s : Scanner) (quote : Int) : Bool × Scanner :=
  let offset := s.offset
  if s.char = 0x61 ∨ s.char = 0x62 ∨ s.char = 0x66 ∨ s.char = 0x6E ∨
     s.char = 0x72 ∨ s.char = 0x74 ∨ s.char = 0x76 ∨ s.char = 0x5C ∨
     s.char = quote then
    (true, s.next)
  else if 0x30 ≤ s.char ∧ s.char ≤ 0x37 then
    s.escFinish offset 3 8 255
  else if s.char = 0x78 then s.next.escFinish offset 2 16 255
  else if s.char = 0x75 then s.next.escFinish offset 4 16 MaxRune
  else if s.char = 0x55 then s.next.escFinish offset 8 16 MaxRune
  else
    let msg := if s.char < 0 then ErrMsg.escapeNotTerminated
               else ErrMsg.unknownEscape
    (false, s.error offset msg)

/-- Loop of Go `scanString`: until the closing `"`, diagnosing a raw
newline or end of input, validating any escape without stopping on
escape failure. -/
def Scanner.scanStringAux : Nat → Scanner → Nat → Scanner
  | 0, s, _ => s
  | n + 1, s, offset =>
    let char := s.char
    if char = 0x0A ∨ char < 0 then s.error offset .stringNotTerminated
    else
      let s1 := s.next
      if char = 0x22 then s1
      else
        let s2 := if char = 0x5C then (s1.scanEscape 0x22).2 else s1
        scanStringAux n s2 offset

/-- Go `scanString` (the opening `"` is already consumed). -/
def Scanner.scanString (s : Scanner) : List Nat × Scanner :=
  let offset := s.offset - 1
  let s1 := s.scanStringAux (mu s + 1) offset
  (byteSlice s1.src offset s1.offset, s1)

/-- Loop of Go `scanChar`: counts logical characters in `n`; inside a
char literal only the single-character escapes are accepted. -/
def Scanner.scanCharAux : Nat → Scanner → Nat → Bool → Nat → (Bool × Nat) × Scanner
  | 0, s, _, valid, n => ((valid, n), s)
  | fuel + 1, s, offset, valid, n =>
    let char := s.char
    if char = 0x0A ∨ char < 0 then
      if valid then ((false, n), s.error offset .runeNotTerminated)
      else ((valid, n), s)
    else
      let s1 := s.next
      if char = 0x27 then ((valid, n), s1)
      else
        if char = 0x5C then
          if s1.char = 0x61 ∨ s1.char = 0x62 ∨ s1.char = 0x66 ∨ s1.char = 0x6E ∨
             s1.char = 0x72 ∨ s1.char = 0x74 ∨ s1.char = 0x76 ∨ s1.char = 0x5C ∨
             s1.char = 0x27 then
            scanCharAux fuel s1.next offset valid (n + 1)
          else
            scanCharAux fuel (s1.error offset .illegalCharLiteral) offset false (n + 1)
        else scanCharAux fuel s1 offset valid (n + 1)

/-- Go `scanChar` (the opening `'` is already consumed): after the
closing quote the literal must hold exactly one logical character. -/
def Scanner.scanChar (s : Scanner) : List Nat × Scanner :=
  let offset := s.offset - 1
  let r := s.scanCharAux (mu s + 1) offset true 0
  let s1 := if r.1.1 ∧ r.1.2 ≠ 1 then r.2.error offset .illegalCharLiteral else r.2
  (byteSlice s1.src offset s1.offset, s1)

/-- Loop of Go `scanRawString`: verbatim until a closing backquote. -/
def Scanner.scanRawStringAux : Nat → Scanner → Nat → Scanner
  | 0, s, _ => s
  | n + 1, s, offset =>
    let char := s.char
    if char < 0 then s.error offset .rawStringNotTerminated
    else
      let s1 := s.next
      if char = 0x60 then s1
      else scanRawStringAux n s1 offset

/-- Go `scanRawString` (the opening backquote is already consumed). -/
def Scanner.scanRawString (s : Scanner) : List Nat × Scanner :=
  let offset := s.offset - 1
  let s1 := s.scanRawStringAux (mu s + 1) offset
  (byteSlice s1.src offset s1.offset, s1)

/-- Modelled from the spec: the closed keyword table lives in the
repository's token package, which is not under src/, and the spec does
not enumerate its members (no claim depends on a specific keyword), so
the table is modelled as empty here; `Lookup` then resolves matched text
to its keyword kind and all unmatched text to an identifier token, as
spec §4.2 states. -/
def keywords : List (List Nat) := []

/-- Modelled from the spec: `Lookup` resolves an identifier against the
closed keyword table. -/
def Lookup (literal : List Nat) : Token :=
  if literal ∈ keywords then Token.KEYWORD literal else Token.IDENT

/-- Result triple of Go `Scan() (pos Position, token Token, literal string)`.
The `Position` type lives outside src/; in scanner.go the assignment
`pos = s.file.Pos(s.offset)` is commented out, so the returned position
is always the zero value, modelled as `0 : Nat`. -/
structure ScanResult where
  pos : Nat
  token : Token
  literal : List Nat
  deriving DecidableEq, Repr

/-- Dispatch body of Go `Scan` after the whitespace loop: `s1` is the
state with whitespace skipped, `recur` is the re-invocation `s.Scan()`
that discards a comment when comments are suppressed. -/
def Scanner.scanStep (recur : Scanner → ScanResult × Scanner) (s1 : Scanner) :
    ScanResult × Scanner :=
    if isLetter s1.char then
      let r := s1.scanIdentifier
      (⟨0, Lookup r.1, r.1⟩, r.2)
    else if isDecimal s1.char ∨ (s1.char = 0x2E ∧ isDecimal (s1.peek : Int)) then
      let r := s1.scanNumber
      (⟨0, r.1.1, r.1.2⟩, r.2)
    else
      let s2 := s1.next
      if s1.char = eof then (⟨0, Token.EOF, []⟩, s2)
      else if s1.char = 0x22 then
        let r := s2.scanString
        (⟨0, Token.STRING, r.1⟩, r.2)
      else if s1.char = 0x60 then
        let r := s2.scanRawString
        (⟨0, Token.STRING, r.1⟩, r.2)
      else if s1.char = 0x27 then
        let r := s2.scanChar
        (⟨0, Token.CHAR, r.1⟩, r.2)
      else if s1.char = 0x2E then (⟨0, Token.ILLEGAL, []⟩, s2)
      else if s1.char = 0x2F then
        if s2.char = 0x2F ∨ s2.char = 0x2A then
          let r := s2.scanComment
          if r.2.scanComments = false then recur r.2
          else (⟨0, Token.COMMENT, r.1⟩, r.2)
        else (⟨0, Token.ILLEGAL, []⟩, s2)
      else if s1.char = 0x40 then
        if isLetter s2.char then
          let r := s2.scanIdentifier
          (⟨0, Token.META, r.1⟩, r.2)
        else (⟨0, Token.ILLEGAL, []⟩, s2.error s2.offset .invalidMetaName)
      else (⟨0, Token.ILLEGAL, []⟩, (s2.error s2.offset .invalidToken).next)

/-- Go `Scan`, fuel-indexed: skip whitespace, then dispatch; the fuel is
spent only by the comment-discarding re-invocation inside `scanStep`. -/
def Scanner.ScanAux : Nat → Scanner → ScanResult × Scanner
  | 0, s => (⟨0, Token.ILLEGAL, []⟩, s)
  | n + 1, s0 => Scanner.scanStep (Scanner.ScanAux n) s0.skipWhitespace

/-- Go `Scan`: scan the next token. -/
def Scanner.Scan (s : Scanner) : ScanResult × Scanner := s.ScanAux (mu s + 1)

/-- State transformer of one `Scan` call. -/
def scanState (s : Scanner) : Scanner := (s.Scan).2

/-- Scanner state at the moment `scanEscape` is entered from
`scanString`: on the buffer `"\ tail...` the opening quote and the
backslash have been consumed and the cursor is loaded at the escape's
first character, which sits at byte offset 2 (this is the state
`NewScanner` followed by the string dispatch of one `Scan` call reaches
there). -/
def escState (tail : List Nat) : Scanner :=
  { src := [0x22, 0x5C] ++ tail, errIsSet := false, ErrorCount := 0,
    scanComments := true, flags := [], flagStarted := false,
    char := ((tail.headD 0 : Nat) : Int), offset := 2, readOffset := 3,
    errors := [], callbackCalls := [] }

/-- Scanner state at the moment `scanNumber` is entered when the buffer
starts with the number: the cursor is loaded at the first byte (this is
the state `NewScanner` produces for a clean ASCII first byte). -/
def numState (src : List Nat) : Scanner :=
  { src := src, errIsSet := false, ErrorCount := 0,
    scanComments := true, flags := [], flagStarted := false,
    char := ((src.headD 0 : Nat) : Int), offset := 0, readOffset := 1,
    errors := [], callbackCalls := [] }

/-! Frame lemmas: no scanner routine ever modifies the source buffer or
the construction-time configuration, and `mu` never increases. -/

@[simp] theorem error_src (s : Scanner) (o : Nat) (m : ErrMsg) :
    (s.error o m).src = s.src := rfl

@[simp] theorem error_scanComments (s : Scanner) (o : Nat) (m : ErrMsg) :
    (s.error o m).scanComments = s.scanComments := rfl

@[simp] theorem error_char (s : Scanner) (o : Nat) (m : ErrMsg) :
    (s.error o m).char = s.char := rfl

@[simp] theorem error_offset (s : Scanner) (o : Nat) (m : ErrMsg) :
    (s.error o m).offset = s.offset := rfl

@[simp] theorem error_readOffset (s : Scanner) (o : Nat) (m : ErrMsg) :
    (s.error o m).readOffset = s.readOffset := rfl

@[simp] theorem error_mu (s : Scanner) (o : Nat) (m : ErrMsg) :
    mu (s.error o m) = mu s := rfl

@[simp] theorem next_src (s : Scanner) : s.next.src = s.src := by
  simp only [Scanner.next]
  split_ifs <;> simp

@[simp] theorem next_scanComments (s : Scanner) : s.next.scanComments = s.scanComments := by
  simp only [Scanner.next]
  split_ifs <;> simp

theorem utf8DecodeRune_pos (p : List Nat) (h : p ≠ []) :
    1 ≤ (utf8DecodeRune p).2 := by
  rcases p with _ | ⟨p0, _ | ⟨b1, _ | ⟨b2, _ | ⟨b3, r⟩⟩⟩⟩
  · exact absurd rfl h
  all_goals simp only [utf8DecodeRune]
  all_goals split_ifs <;> simp

theorem mu_next_le (s : Scanner) : mu s.next ≤ mu s := by
  by_cases hro : s.readOffset < s.src.length
  · have hw : 1 ≤ (utf8DecodeRune (s.src.drop s.readOffset)).2 := by
      apply utf8DecodeRune_pos
      intro hnil
      have := congrArg List.length hnil
      simp at this
      omega
    simp only [Scanner.next, hro, if_true]
    split_ifs <;> simp only [mu, Scanner.error] <;> split_ifs <;> simp_all <;> omega
  · simp only [Scanner.next, hro, if_false]
    simp only [mu]
    split_ifs <;> simp_all <;> omega

theorem mu_next_lt (s : Scanner) (h : s.readOffset < s.src.length ∨ s.char ≠ eof) :
    mu s.next < mu s := by
  by_cases hro : s.readOffset < s.src.length
  · have hw : 1 ≤ (utf8DecodeRune (s.src.drop s.readOffset)).2 := by
      apply utf8DecodeRune_pos
      intro hnil
      have := congrArg List.length hnil
      simp at this
      omega
    simp only [Scanner.next, hro, if_true]
    split_ifs <;> simp only [mu, Scanner.error] <;> split_ifs <;> simp_all <;> omega
  · have hch : s.char ≠ eof := h.resolve_left hro
    simp only [Scanner.next, hro, if_false]
    simp only [mu]
    simp [hch]

@[simp] theorem skipWhitespaceAux_src (n : Nat) : ∀ s : Scanner,
    (s.skipWhitespaceAux n).src = s.src := by
  induction n with
  | zero => intro s; rfl
  | succ n ih =>
    intro s
    simp only [Scanner.skipWhitespaceAux]
    split_ifs <;> simp [ih]

@[simp] theorem skipWhitespaceAux_scanComments (n : Nat) : ∀ s : Scanner,
    (s.skipWhitespaceAux n).scanComments = s.scanComments := by
  induction n with
  | zero => intro s; rfl
  | succ n ih =>
    intro s
    simp only [Scanner.skipWhitespaceAux]
    split_ifs <;> simp [ih]

theorem skipWhitespaceAux_mu_le (n : Nat) : ∀ s : Scanner,
    mu (s.skipWhitespaceAux n) ≤ mu s := by
  induction n with
  | zero => intro s; exact le_refl _
  | succ n ih =>
    intro s
    simp only [Scanner.skipWhitespaceAux]
    split_ifs
    · exact le_trans (ih s.next) (mu_next_le s)
    · exact le_refl _

@[simp] theorem skipWhitespace_src (s : Scanner) : s.skipWhitespace.src = s.src :=
  skipWhitespaceAux_src _ s

@[simp] theorem skipWhitespace_scanComments (s : Scanner) :
    s.skipWhitespace.scanComments = s.scanComments :=
  skipWhitespaceAux_scanComments _ s

theorem skipWhitespace_mu_le (s : Scanner) : mu s.skipWhitespace ≤ mu s :=
  skipWhitespaceAux_mu_le _ s

@[simp] theorem lineCommentAux_src (n : Nat) : ∀ s : Scanner,
    (s.lineCommentAux n).src = s.src := by
  induction n with
  | zero => intro s; rfl
  | succ n ih =>
    intro s
    simp only [Scanner.lineCommentAux]
    split_ifs <;> simp [ih]

@[simp] theorem lineCommentAux_scanComments (n : Nat) : ∀ s : Scanner,
    (s.lineCommentAux n).scanComments = s.scanComments := by
  induction n with
  | zero => intro s; rfl
  | succ n ih =>
    intro s
    simp only [Scanner.lineCommentAux]
    split_ifs <;> simp [ih]

theorem lineCommentAux_mu_le (n : Nat) : ∀ s : Scanner,
    mu (s.lineCommentAux n) ≤ mu s := by
  induction n with
  | zero => intro s; exact le_refl _
  | succ n ih =>
    intro s
    simp only [Scanner.lineCommentAux]
    split_ifs
    · exact le_trans (ih s.next) (mu_next_le s)
    · exact le_refl _

@[simp] theorem blockCommentAux_src (n : Nat) : ∀ s : Scanner,
    (s.blockCommentAux n).2.src = s.src := by
  induction n with
  | zero => intro s; rfl
  | succ n ih =>
    intro s
    simp only [Scanner.blockCommentAux]
    split_ifs <;> simp [ih]

@[simp] theorem blockCommentAux_scanComments (n : Nat) : ∀ s : Scanner,
    (s.blockCommentAux n).2.scanComments = s.scanComments := by
  induction n with
  | zero => intro s; rfl
  | succ n ih =>
    intro s
    simp only [Scanner.blockCommentAux]
    split_ifs <;> simp [ih]

theorem blockCommentAux_mu_le (n : Nat) : ∀ s : Scanner,
    mu (s.blockCommentAux n).2 ≤ mu s := by
  induction n with
  | zero => intro s; exact le_refl _
  | succ n ih =>
    intro s
    simp only [Scanner.blockCommentAux]
    split_ifs
    · exact le_trans (mu_next_le _) (mu_next_le s)
    · exact le_trans (ih _) (mu_next_le s)
    · exact le_refl _

@[simp] theorem scanComment_src (s : Scanner) : (s.scanComment).2.src = s.src := by
  simp only [Scanner.scanComment]
  split_ifs <;> simp

@[simp] theorem scanComment_scanComments (s : Scanner) :
    (s.scanComment).2.scanComments = s.scanComments := by
  simp only [Scanner.scanComment]
  split_ifs <;> simp

theorem scanComment_mu_le (s : Scanner) : mu (s.scanComment).2 ≤ mu s := by
  simp only [Scanner.scanComment]
  split_ifs with h1 h2
  · exact le_trans (lineCommentAux_mu_le _ _) (mu_next_le s)
  · simp only [error_mu]
    exact le_trans (blockCommentAux_mu_le _ _) (mu_next_le s)
  · exact le_trans (blockCommentAux_mu_le _ _) (mu_next_le s)

@[simp] theorem scanIdentifierAux_src (n : Nat) : ∀ s : Scanner,
    (s.scanIdentifierAux n).src = s.src := by
  induction n with
  | zero => intro s; rfl
  | succ n ih =>
    intro s
    simp only [Scanner.scanIdentifierAux]
    split_ifs <;> simp [ih]

@[simp] theorem scanIdentifierAux_scanComments (n : Nat) : ∀ s : Scanner,
    (s.scanIdentifierAux n).scanComments = s.scanComments := by
  induction n with
  | zero => intro s; rfl
  | succ n ih =>
    intro s
    simp only [Scanner.scanIdentifierAux]
    split_ifs <;> simp [ih]

theorem scanIdentifierAux_mu_le (n : Nat) : ∀ s : Scanner,
    mu (s.scanIdentifierAux n) ≤ mu s := by
  induction n with
  | zero => intro s; exact le_refl _
  | succ n ih =>
    intro s
    simp only [Scanner.scanIdentifierAux]
    split_ifs
    · exact le_trans (ih s.next) (mu_next_le s)
    · exact le_refl _

@[simp] theorem scanIdentifier_src (s : Scanner) : (s.scanIdentifier).2.src = s.src := by
  simp only [Scanner.scanIdentifier]
  simp

@[simp] theorem scanIdentifier_scanComments (s : Scanner) :
    (s.scanIdentifier).2.scanComments = s.scanComments := by
  simp only [Scanner.scanIdentifier]
  simp

theorem scanIdentifier_mu_le (s : Scanner) : mu (s.scanIdentifier).2 ≤ mu s :=
  scanIdentifierAux_mu_le _ s

@[simp] theorem scanDigitsAux_src (n : Nat) : ∀ (s : Scanner) (base : Nat),
    (s.scanDigitsAux n base).src = s.src := by
  induction n with
  | zero => intro s base; rfl
  | succ n ih =>
    intro s base
    simp only [Scanner.scanDigitsAux]
    split_ifs <;> simp [ih]

@[simp] theorem scanDigitsAux_scanComments (n : Nat) : ∀ (s : Scanner) (base : Nat),
    (s.scanDigitsAux n base).scanComments = s.scanComments := by
  induction n with
  | zero => intro s base; rfl
  | succ n ih =>
    intro s base
    simp only [Scanner.scanDigitsAux]
    split_ifs <;> simp [ih]

theorem scanDigitsAux_mu_le (n : Nat) : ∀ (s : Scanner) (base : Nat),
    mu (s.scanDigitsAux n base) ≤ mu s := by
  induction n with
  | zero => intro s base; exact le_refl _
  | succ n ih =>
    intro s base
    simp only [Scanner.scanDigitsAux]
    split_ifs
    · exact le_trans (ih s.next base) (mu_next_le s)
    · exact le_refl _

@[simp] theorem scanDigits_src (s : Scanner) (base : Nat) :
    (s.scanDigits base).src = s.src := scanDigitsAux_src _ s base

@[simp] theorem scanDigits_scanComments (s : Scanner) (base : Nat) :
    (s.scanDigits base).scanComments = s.scanComments := scanDigitsAux_scanComments _ s base

theorem scanDigits_mu_le (s : Scanner) (base : Nat) :
    mu (s.scanDigits base) ≤ mu s := scanDigitsAux_mu_le _ s base

@[simp] theorem numExtra_src (s : Scanner) (offset base : Nat) :
    (s.numExtra offset base).2.src = s.src := by
  simp only [Scanner.numExtra]
  split_ifs <;> simp

@[simp] theorem numExtra_scanComments (s : Scanner) (offset base : Nat) :
    (s.numExtra offset base).2.scanComments = s.scanComments := by
  simp only [Scanner.numExtra]
  split_ifs <;> simp

theorem numExtra_mu_le (s : Scanner) (offset base : Nat) :
    mu (s.numExtra offset base).2 ≤ mu s := by
  simp only [Scanner.numExtra]
  split_ifs <;> simp only [error_mu] <;>
    exact le_trans (scanDigits_mu_le _ _) (mu_next_le s)

@[simp] theorem numInt_src (s : Scanner) (offset : Nat) :
    (s.numInt offset).2.src = s.src := by
  simp only [Scanner.numInt]
  split_ifs <;> simp

@[simp] theorem numInt_scanComments (s : Scanner) (offset : Nat) :
    (s.numInt offset).2.scanComments = s.scanComments := by
  simp only [Scanner.numInt]
  split_ifs <;> simp

theorem numInt_mu_le (s : Scanner) (offset : Nat) :
    mu (s.numInt offset).2 ≤ mu s := by
  have h1 : ∀ base, mu (s.next.numExtra offset base).2 ≤ mu s :=
    fun base => le_trans (numExtra_mu_le _ _ _) (mu_next_le s)
  simp only [Scanner.numInt]
  split_ifs
  · exact h1 16
  · exact h1 2
  · exact h1 8
  · simp only [Prod.snd, error_mu]
    exact mu_next_le s
  · exact mu_next_le s
  · exact scanDigits_mu_le s 10
  · exact le_refl _

@[simp] theorem scanNumber_src (s : Scanner) : (s.scanNumber).2.src = s.src := by
  simp only [Scanner.scanNumber]
  split_ifs <;> simp

@[simp] theorem scanNumber_scanComments (s : Scanner) :
    (s.scanNumber).2.scanComments = s.scanComments := by
  simp only [Scanner.scanNumber]
  split_ifs <;> simp

theorem scanNumber_mu_le (s : Scanner) : mu (s.scanNumber).2 ≤ mu s := by
  have hbase : mu (((s.numInt s.offset).2.next).scanDigits 10) ≤ mu s :=
    le_trans (scanDigits_mu_le _ _) (le_trans (mu_next_le _) (numInt_mu_le s _))
  simp only [Scanner.scanNumber]
  split_ifs
  · simpa using hbase
  · exact hbase
  · exact numInt_mu_le s _

@[simp] theorem escLoop_src (n : Nat) : ∀ (s : Scanner) (base x : Nat),
    (s.escLoop n base x).2.src = s.src := by
  induction n with
  | zero => intro s base x; rfl
  | succ n ih =>
    intro s base x
    simp only [Scanner.escLoop]
    split_ifs <;> simp [ih]

@[simp] theorem escLoop_scanComments (n : Nat) : ∀ (s : Scanner) (base x : Nat),
    (s.escLoop n base x).2.scanComments = s.scanComments := by
  induction n with
  | zero => intro s base x; rfl
  | succ n ih =>
    intro s base x
    simp only [Scanner.escLoop]
    split_ifs <;> simp [ih]

theorem escLoop_mu_le (n : Nat) : ∀ (s : Scanner) (base x : Nat),
    mu (s.escLoop n base x).2 ≤ mu s := by
  induction n with
  | zero => intro s base x; exact le_refl _
  | succ n ih =>
    intro s base x
    simp only [Scanner.escLoop]
    split_ifs
    · exact le_trans (ih _ _ _) (mu_next_le s)
    · simp [error_mu]
    · simp [error_mu]

@[simp] theorem escFinish_src (s : Scanner) (offset n base mx : Nat) :
    (s.escFinish offset n base mx).2.src = s.src := by
  simp only [Scanner.escFinish]
  split_ifs <;> simp

@[simp] theorem escFinish_scanComments (s : Scanner) (offset n base mx : Nat) :
    (s.escFinish offset n base mx).2.scanComments = s.scanComments := by
  simp only [Scanner.escFinish]
  split_ifs <;> simp

theorem escFinish_mu_le (s : Scanner) (offset n base mx : Nat) :
    mu (s.escFinish offset n base mx).2 ≤ mu s := by
  simp only [Scanner.escFinish]
  split_ifs <;> simp only [error_mu] <;> exact escLoop_mu_le _ _ _ _

@[simp] theorem scanEscape_src (s : Scanner) (quote : Int) :
    (s.scanEscape quote).2.src = s.src := by
  simp only [Scanner.scanEscape]
  split_ifs <;> simp

@[simp] theorem scanEscape_scanComments (s : Scanner) (quote : Int) :
    (s.scanEscape quote).2.scanComments = s.scanComments := by
  simp only [Scanner.scanEscape]
  split_ifs <;> simp

theorem scanEscape_mu_le (s : Scanner) (quote : Int) :
    mu (s.scanEscape quote).2 ≤ mu s := by
  have h1 : ∀ n base mx, mu (s.next.escFinish s.offset n base mx).2 ≤ mu s :=
    fun n base mx => le_trans (escFinish_mu_le _ _ _ _ _) (mu_next_le s)
  simp only [Scanner.scanEscape]
  split_ifs
  · exact mu_next_le s
  · exact escFinish_mu_le _ _ _ _ _
  · exact h1 2 16 255
  · exact h1 4 16 MaxRune
  · exact h1 8 16 MaxRune
  · simp [error_mu]
  · simp [error_mu]

@[simp] theorem scanStringAux_src (n : Nat) : ∀ (s : Scanner) (offset : Nat),
    (s.scanStringAux n offset).src = s.src := by
  induction n with
  | zero => intro s offset; rfl
  | succ n ih =>
    intro s offset
    simp only [Scanner.scanStringAux]
    split_ifs <;> simp [ih]

@[simp] theorem scanStringAux_scanComments (n : Nat) : ∀ (s : Scanner) (offset : Nat),
    (s.scanStringAux n offset).scanComments = s.scanComments := by
  induction n with
  | zero => intro s offset; rfl
  | succ n ih =>
    intro s offset
    simp only [Scanner.scanStringAux]
    split_ifs <;> simp [ih]

theorem scanStringAux_mu_le (n : Nat) : ∀ (s : Scanner) (offset : Nat),
    mu (s.scanStringAux n offset) ≤ mu s := by
  induction n with
  | zero => intro s offset; exact le_refl _
  | succ n ih =>
    intro s offset
    simp only [Scanner.scanStringAux]
    split_ifs
    · simp
    · exact mu_next_le s
    · exact le_trans (ih _ _)
        (le_trans (scanEscape_mu_le _ _) (mu_next_le s))
    · exact le_trans (ih _ _) (mu_next_le s)

@[simp] theorem scanString_src (s : Scanner) : (s.scanString).2.src = s.src := by
  simp only [Scanner.scanString]
  simp

@[simp] theorem scanString_scanComments (s : Scanner) :
    (s.scanString).2.scanComments = s.scanComments := by
  simp only [Scanner.scanString]
  simp

theorem scanString_mu_le (s : Scanner) : mu (s.scanString).2 ≤ mu s :=
  scanStringAux_mu_le _ s _

@[simp] theorem scanCharAux_src (fuel : Nat) : ∀ (s : Scanner) (offset : Nat) (valid : Bool) (n : Nat),
    (s.scanCharAux fuel offset valid n).2.src = s.src := by
  induction fuel with
  | zero => intro s offset valid n; rfl
  | succ fuel ih =>
    intro s offset valid n
    simp only [Scanner.scanCharAux]
    split_ifs <;> simp [ih]

@[simp] theorem scanCharAux_scanComments (fuel : Nat) :
    ∀ (s : Scanner) (offset : Nat) (valid : Bool) (n : Nat),
    (s.scanCharAux fuel offset valid n).2.scanComments = s.scanComments := by
  induction fuel with
  | zero => intro s offset valid n; rfl
  | succ fuel ih =>
    intro s offset valid n
    simp only [Scanner.scanCharAux]
    split_ifs <;> simp [ih]

theorem scanCharAux_mu_le (fuel : Nat) :
    ∀ (s : Scanner) (offset : Nat) (valid : Bool) (n : Nat),
    mu (s.scanCharAux fuel offset valid n).2 ≤ mu s := by
  induction fuel with
  | zero => intro s offset valid n; exact le_refl _
  | succ fuel ih =>
    intro s offset valid n
    simp only [Scanner.scanCharAux]
    split_ifs
    · simp [error_mu]
    · exact le_refl _
    · exact mu_next_le s
    · exact le_trans (ih _ _ _ _) (le_trans (mu_next_le _) (mu_next_le s))
    · exact le_trans (ih _ _ _ _)
        (le_trans (le_of_eq (error_mu _ _ _)) (mu_next_le s))
    · exact le_trans (ih _ _ _ _) (mu_next_le s)

@[simp] theorem scanChar_src (s : Scanner) : (s.scanChar).2.src = s.src := by
  simp only [Scanner.scanChar]
  split_ifs <;> simp

@[simp] theorem scanChar_scanComments (s : Scanner) :
    (s.scanChar).2.scanComments = s.scanComments := by
  simp only [Scanner.scanChar]
  split_ifs <;> simp

theorem scanChar_mu_le (s : Scanner) : mu (s.scanChar).2 ≤ mu s := by
  simp only [Scanner.scanChar]
  split_ifs
  · simp only [error_mu]
    exact scanCharAux_mu_le _ _ _ _ _
  · exact scanCharAux_mu_le _ _ _ _ _

@[simp] theorem scanRawStringAux_src (n : Nat) : ∀ (s : Scanner) (offset : Nat),
    (s.scanRawStringAux n offset).src = s.src := by
  induction n with
  | zero => intro s offset; rfl
  | succ n ih =>
    intro s offset
    simp only [Scanner.scanRawStringAux]
    split_ifs <;> simp [ih]

@[simp] theorem scanRawStringAux_scanComments (n : Nat) : ∀ (s : Scanner) (offset : Nat),
    (s.scanRawStringAux n offset).scanComments = s.scanComments := by
  induction n with
  | zero => intro s offset; rfl
  | succ n ih =>
    intro s offset
    simp only [Scanner.scanRawStringAux]
    split_ifs <;> simp [ih]

theorem scanRawStringAux_mu_le (n : Nat) : ∀ (s : Scanner) (offset : Nat),
    mu (s.scanRawStringAux n offset) ≤ mu s := by
  induction n with
  | zero => intro s offset; exact le_refl _
  | succ n ih =>
    intro s offset
    simp only [Scanner.scanRawStringAux]
    split_ifs
    · simp [error_mu]
    · exact mu_next_le s
    · exact le_trans (ih _ _) (mu_next_le s)

@[simp] theorem scanRawString_src (s : Scanner) : (s.scanRawString).2.src = s.src := by
  simp only [Scanner.scanRawString]
  simp

@[simp] theorem scanRawString_scanComments (s : Scanner) :
    (s.scanRawString).2.scanComments = s.scanComments := by
  simp only [Scanner.scanRawString]
  simp

theorem scanRawString_mu_le (s : Scanner) : mu (s.scanRawString).2 ≤ mu s :=
  scanRawStringAux_mu_le _ s _

/-! Cursor-step characterizations and strict decrease of `mu`. -/

theorem next_eof (s : Scanner) (h : ¬ s.readOffset < s.src.length) :
    s.next = { s with offset := s.src.length, char := eof } := by
  unfold Scanner.next
  rw [if_neg h]

theorem next_clean (s : Scanner) (b : Nat) (hro : s.readOffset < s.src.length)
    (hb : s.src.getD s.readOffset 0 = b) (h0 : 0 < b) (h80 : b < 0x80) :
    s.next = { s with offset := s.readOffset, readOffset := s.readOffset + 1,
                      char := (b : Int) } := by
  simp only [Scanner.next, hro, if_true, hb]
  rw [if_neg (by omega), if_neg (by omega)]

theorem isLetter_ne_eof {c : Int} (h : isLetter c) : c ≠ eof := by
  intro he
  rw [he] at h
  exact absurd h (by decide)

theorem isDecimal_ne_eof {c : Int} (h : isDecimal c) : c ≠ eof := by
  intro he
  rw [he] at h
  exact absurd h (by decide)

theorem skipWhitespace_eof (s : Scanner) (h : s.char = eof) : s.skipWhitespace = s := by
  have hng : ¬ (s.char = 0x20 ∨ s.char = 0x09 ∨ s.char = 0x0A ∨ s.char = 0x0D) := by
    rw [h]; decide
  simp [Scanner.skipWhitespace, Scanner.skipWhitespaceAux, hng]

theorem skipWhitespace_cases (s : Scanner) :
    s.skipWhitespace = s ∨ mu s.skipWhitespace < mu s := by
  unfold Scanner.skipWhitespace
  simp only [Scanner.skipWhitespaceAux]
  split_ifs with h
  · right
    refine lt_of_le_of_lt (skipWhitespaceAux_mu_le _ _) (mu_next_lt s (Or.inr ?_))
    rcases h with h | h | h | h <;> rw [h] <;> decide
  · left; rfl

theorem scanIdentifier_mu_lt (s : Scanner) (h : isLetter s.char ∨ isDecimal s.char) :
    mu (s.scanIdentifier).2 < mu s := by
  have hne : s.char ≠ eof := by
    rcases h with h | h
    · exact isLetter_ne_eof h
    · exact isDecimal_ne_eof h
  simp only [Scanner.scanIdentifier, Scanner.scanIdentifierAux]
  rw [if_pos h]
  exact lt_of_le_of_lt (scanIdentifierAux_mu_le _ _) (mu_next_lt s (Or.inr hne))

theorem scanDigits_mu_lt (s : Scanner) (base : Nat)
    (hd : digitVal s.char < (base : Int)) (hne : s.char ≠ eof) :
    mu (s.scanDigits base) < mu s := by
  simp only [Scanner.scanDigits, Scanner.scanDigitsAux]
  rw [if_pos hd]
  exact lt_of_le_of_lt (scanDigitsAux_mu_le _ _ _) (mu_next_lt s (Or.inr hne))

theorem numInt_mu_lt (s : Scanner) (offset : Nat) (h : isDecimal s.char) :
    mu (s.numInt offset).2 < mu s := by
  have hne : s.char ≠ eof := isDecimal_ne_eof h
  have hdot : s.char ≠ 0x2E := by
    rcases h with ⟨h1, h2⟩; omega
  simp only [Scanner.numInt]
  rw [if_pos hdot]
  by_cases h0 : s.char = 0x30
  · rw [if_pos h0]
    have hlt : mu s.next < mu s := mu_next_lt s (Or.inr hne)
    split_ifs
    · exact lt_of_le_of_lt (numExtra_mu_le _ _ _) hlt
    · exact lt_of_le_of_lt (numExtra_mu_le _ _ _) hlt
    · exact lt_of_le_of_lt (numExtra_mu_le _ _ _) hlt
    · simpa using hlt
    · exact hlt
  · rw [if_neg h0]
    refine scanDigits_mu_lt s 10 ?_ hne
    rcases h with ⟨h1, h2⟩
    simp only [digitVal]
    rw [if_pos ⟨h1, h2⟩]
    omega

theorem scanNumber_mu_lt (s : Scanner)
    (h : isDecimal s.char ∨ s.char = 0x2E) :
    mu (s.scanNumber).2 < mu s := by
  simp only [Scanner.scanNumber]
  rcases h with hdec | hdot
  · have hint : mu (s.numInt s.offset).2 < mu s := numInt_mu_lt s s.offset hdec
    split_ifs
    · simp only [Prod.snd, error_mu]
      exact lt_of_le_of_lt
        (le_trans (scanDigits_mu_le _ _) (mu_next_le _)) hint
    · exact lt_of_le_of_lt
        (le_trans (scanDigits_mu_le _ _) (mu_next_le _)) hint
    · exact hint
  · have hnum : s.numInt s.offset = (Token.INT, s) := by
      simp only [Scanner.numInt]
      rw [if_neg (by simp [hdot])]
    rw [hnum]
    have hne : s.char ≠ eof := by rw [hdot]; decide
    have hlt : mu s.next < mu s := mu_next_lt s (Or.inr hne)
    rw [if_pos (show (Token.INT, s).2.char = 0x2E from hdot)]
    split_ifs
    · simp only [Prod.snd, error_mu]
      exact lt_of_le_of_lt (scanDigits_mu_le _ _) hlt
    · exact lt_of_le_of_lt (scanDigits_mu_le _ _) hlt

theorem scanStep_src (recur : Scanner → ScanResult × Scanner)
    (hrec : ∀ t : Scanner, ((recur t).2).src = t.src) (s1 : Scanner) :
    ((Scanner.scanStep recur s1).2).src = s1.src := by
  dsimp only [Scanner.scanStep]
  by_cases h1 : isLetter s1.char
  · rw [if_pos h1]
    simp
  rw [if_neg h1]
  by_cases h2 : isDecimal s1.char ∨ s1.char = 0x2E ∧ isDecimal (s1.peek : Int)
  · rw [if_pos h2]
    simp
  rw [if_neg h2]
  by_cases h3 : s1.char = eof
  · rw [if_pos h3]
    simp
  rw [if_neg h3]
  by_cases h4 : s1.char = 0x22
  · rw [if_pos h4]
    simp
  rw [if_neg h4]
  by_cases h5 : s1.char = 0x60
  · rw [if_pos h5]
    simp
  rw [if_neg h5]
  by_cases h6 : s1.char = 0x27
  · rw [if_pos h6]
    simp
  rw [if_neg h6]
  by_cases h7 : s1.char = 0x2E
  · rw [if_pos h7]
    simp
  rw [if_neg h7]
  by_cases h8 : s1.char = 0x2F
  · rw [if_pos h8]
    by_cases h9 : s1.next.char = 0x2F ∨ s1.next.char = 0x2A
    · rw [if_pos h9]
      by_cases h10 : (s1.next.scanComment).2.scanComments = false
      · rw [if_pos h10]
        rw [hrec]
        simp
      · rw [if_neg h10]
        simp
    · rw [if_neg h9]
      simp
  rw [if_neg h8]
  by_cases h11 : s1.char = 0x40
  · rw [if_pos h11]
    by_cases h12 : isLetter s1.next.char
    · rw [if_pos h12]
      simp
    · rw [if_neg h12]
      simp
  rw [if_neg h11]
  simp

theorem scanStep_scanComments (recur : Scanner → ScanResult × Scanner)
    (hrec : ∀ t : Scanner, ((recur t).2).scanComments = t.scanComments) (s1 : Scanner) :
    ((Scanner.scanStep recur s1).2).scanComments = s1.scanComments := by
  dsimp only [Scanner.scanStep]
  by_cases h1 : isLetter s1.char
  · rw [if_pos h1]
    simp
  rw [if_neg h1]
  by_cases h2 : isDecimal s1.char ∨ s1.char = 0x2E ∧ isDecimal (s1.peek : Int)
  · rw [if_pos h2]
    simp
  rw [if_neg h2]
  by_cases h3 : s1.char = eof
  · rw [if_pos h3]
    simp
  rw [if_neg h3]
  by_cases h4 : s1.char = 0x22
  · rw [if_pos h4]
    simp
  rw [if_neg h4]
  by_cases h5 : s1.char = 0x60
  · rw [if_pos h5]
    simp
  rw [if_neg h5]
  by_cases h6 : s1.char = 0x27
  · rw [if_pos h6]
    simp
  rw [if_neg h6]
  by_cases h7 : s1.char = 0x2E
  · rw [if_pos h7]
    simp
  rw [if_neg h7]
  by_cases h8 : s1.char = 0x2F
  · rw [if_pos h8]
    by_cases h9 : s1.next.char = 0x2F ∨ s1.next.char = 0x2A
    · rw [if_pos h9]
      by_cases h10 : (s1.next.scanComment).2.scanComments = false
      · rw [if_pos h10]
        rw [hrec]
        simp
      · rw [if_neg h10]
        simp
    · rw [if_neg h9]
      simp
  rw [if_neg h8]
  by_cases h11 : s1.char = 0x40
  · rw [if_pos h11]
    by_cases h12 : isLetter s1.next.char
    · rw [if_pos h12]
      simp
    · rw [if_neg h12]
      simp
  rw [if_neg h11]
  simp

theorem scanStep_mu_le (recur : Scanner → ScanResult × Scanner)
    (hrec : ∀ t : Scanner, mu (recur t).2 ≤ mu t) (s1 : Scanner) :
    mu ((Scanner.scanStep recur s1).2) ≤ mu s1 := by
  dsimp only [Scanner.scanStep]
  by_cases h1 : isLetter s1.char
  · rw [if_pos h1]
    exact scanIdentifier_mu_le _
  rw [if_neg h1]
  by_cases h2 : isDecimal s1.char ∨ s1.char = 0x2E ∧ isDecimal (s1.peek : Int)
  · rw [if_pos h2]
    exact scanNumber_mu_le _
  rw [if_neg h2]
  by_cases h3 : s1.char = eof
  · rw [if_pos h3]
    exact mu_next_le _
  rw [if_neg h3]
  by_cases h4 : s1.char = 0x22
  · rw [if_pos h4]
    exact le_trans (scanString_mu_le _) (mu_next_le _)
  rw [if_neg h4]
  by_cases h5 : s1.char = 0x60
  · rw [if_pos h5]
    exact le_trans (scanRawString_mu_le _) (mu_next_le _)
  rw [if_neg h5]
  by_cases h6 : s1.char = 0x27
  · rw [if_pos h6]
    exact le_trans (scanChar_mu_le _) (mu_next_le _)
  rw [if_neg h6]
  by_cases h7 : s1.char = 0x2E
  · rw [if_pos h7]
    exact mu_next_le _
  rw [if_neg h7]
  by_cases h8 : s1.char = 0x2F
  · rw [if_pos h8]
    by_cases h9 : s1.next.char = 0x2F ∨ s1.next.char = 0x2A
    · rw [if_pos h9]
      by_cases h10 : (s1.next.scanComment).2.scanComments = false
      · rw [if_pos h10]
        exact le_trans (hrec _) (le_trans (scanComment_mu_le _) (mu_next_le _))
      · rw [if_neg h10]
        exact le_trans (scanComment_mu_le _) (mu_next_le _)
    · rw [if_neg h9]
      exact mu_next_le _
  rw [if_neg h8]
  by_cases h11 : s1.char = 0x40
  · rw [if_pos h11]
    by_cases h12 : isLetter s1.next.char
    · rw [if_pos h12]
      exact le_trans (scanIdentifier_mu_le _) (mu_next_le _)
    · rw [if_neg h12]
      exact le_trans (le_of_eq (error_mu _ _ _)) (mu_next_le _)
  rw [if_neg h11]
  exact le_trans (mu_next_le _) (le_trans (le_of_eq (error_mu _ _ _)) (mu_next_le _))

theorem scanStep_mu_lt (recur : Scanner → ScanResult × Scanner)
    (hrec : ∀ t : Scanner, mu (recur t).2 ≤ mu t) (s1 : Scanner)
    (h : s1.char ≠ eof) :
    mu ((Scanner.scanStep recur s1).2) < mu s1 := by
  have hnext : mu s1.next < mu s1 := mu_next_lt _ (Or.inr h)
  dsimp only [Scanner.scanStep]
  by_cases h1 : isLetter s1.char
  · rw [if_pos h1]
    exact scanIdentifier_mu_lt _ (Or.inl h1)
  rw [if_neg h1]
  by_cases h2 : isDecimal s1.char ∨ s1.char = 0x2E ∧ isDecimal (s1.peek : Int)
  · rw [if_pos h2]
    refine scanNumber_mu_lt _ ?_
    rcases h2 with h2 | ⟨h2, -⟩
    · exact Or.inl h2
    · exact Or.inr h2
  rw [if_neg h2]
  by_cases h3 : s1.char = eof
  · rw [if_pos h3]
    exact absurd h3 h
  rw [if_neg h3]
  by_cases h4 : s1.char = 0x22
  · rw [if_pos h4]
    exact lt_of_le_of_lt (scanString_mu_le _) hnext
  rw [if_neg h4]
  by_cases h5 : s1.char = 0x60
  · rw [if_pos h5]
    exact lt_of_le_of_lt (scanRawString_mu_le _) hnext
  rw [if_neg h5]
  by_cases h6 : s1.char = 0x27
  · rw [if_pos h6]
    exact lt_of_le_of_lt (scanChar_mu_le _) hnext
  rw [if_neg h6]
  by_cases h7 : s1.char = 0x2E
  · rw [if_pos h7]
    exact hnext
  rw [if_neg h7]
  by_cases h8 : s1.char = 0x2F
  · rw [if_pos h8]
    by_cases h9 : s1.next.char = 0x2F ∨ s1.next.char = 0x2A
    · rw [if_pos h9]
      by_cases h10 : (s1.next.scanComment).2.scanComments = false
      · rw [if_pos h10]
        exact lt_of_le_of_lt (le_trans (hrec _) (scanComment_mu_le _)) hnext
      · rw [if_neg h10]
        exact lt_of_le_of_lt (scanComment_mu_le _) hnext
    · rw [if_neg h9]
      exact hnext
  rw [if_neg h8]
  by_cases h11 : s1.char = 0x40
  · rw [if_pos h11]
    by_cases h12 : isLetter s1.next.char
    · rw [if_pos h12]
      exact lt_of_le_of_lt (scanIdentifier_mu_le _) hnext
    · rw [if_neg h12]
      exact lt_of_le_of_lt (le_of_eq (error_mu _ _ _)) hnext
  rw [if_neg h11]
  exact lt_of_le_of_lt (mu_next_le _) (lt_of_le_of_lt (le_of_eq (error_mu _ _ _)) hnext)

@[simp] theorem ScanAux_src (n : Nat) : ∀ s : Scanner, ((s.ScanAux n).2).src = s.src := by
  induction n with
  | zero => intro s; rfl
  | succ n ih =>
    intro s
    simp only [Scanner.ScanAux]
    rw [scanStep_src _ ih]
    exact skipWhitespace_src s

@[simp] theorem ScanAux_scanComments (n : Nat) : ∀ s : Scanner,
    ((s.ScanAux n).2).scanComments = s.scanComments := by
  induction n with
  | zero => intro s; rfl
  | succ n ih =>
    intro s
    simp only [Scanner.ScanAux]
    rw [scanStep_scanComments _ ih]
    exact skipWhitespace_scanComments s

theorem ScanAux_mu_le (n : Nat) : ∀ s : Scanner, mu ((s.ScanAux n).2) ≤ mu s := by
  induction n with
  | zero => intro s; exact le_refl _
  | succ n ih =>
    intro s
    simp only [Scanner.ScanAux]
    exact le_trans (scanStep_mu_le _ ih s.skipWhitespace) (skipWhitespace_mu_le s)

theorem ScanAux_mu_lt (n : Nat) (s : Scanner) (h : s.char ≠ eof) :
    mu ((s.ScanAux (n + 1)).2) < mu s := by
  simp only [Scanner.ScanAux]
  rcases skipWhitespace_cases s with heq | hlt
  · rw [heq]
    exact scanStep_mu_lt _ (ScanAux_mu_le n) s (heq ▸ h)
  · exact lt_of_le_of_lt (scanStep_mu_le _ (ScanAux_mu_le n) s.skipWhitespace) hlt

theorem Scan_mu_lt (s : Scanner) (h : s.char ≠ eof) : mu (s.Scan).2 < mu s :=
  ScanAux_mu_lt (mu s) s h

theorem Scan_eof (s : Scanner) (h : s.char = eof) :
    (s.Scan).1 = ⟨0, Token.EOF, []⟩ ∧ (s.Scan).2 = s.next := by
  unfold Scanner.Scan
  simp only [Scanner.ScanAux]
  rw [skipWhitespace_eof s h]
  dsimp only [Scanner.scanStep]
  rw [if_neg (show ¬ isLetter s.char by rw [h]; decide)]
  rw [if_neg (show ¬ (isDecimal s.char ∨ s.char = 0x2E ∧ isDecimal (s.peek : Int)) by
    rintro (hx | ⟨hx, -⟩) <;> rw [h] at hx <;> revert hx <;> decide)]
  rw [if_pos h]
  exact ⟨rfl, rfl⟩

theorem Lookup_ne_comment (l : List Nat) : Lookup l ≠ Token.COMMENT := by
  unfold Lookup
  split_ifs <;> simp

theorem numExtra_fst (s : Scanner) (o b : Nat) :
    (s.numExtra o b).1 = Token.ILLEGAL ∨ (s.numExtra o b).1 = Token.INT := by
  dsimp only [Scanner.numExtra]
  by_cases h1 : ((s.next.scanDigits b).offset : Int) - (o : Int) ≤ 2
  · rw [if_pos h1]
    split_ifs <;> simp
  · rw [if_neg h1]
    split_ifs <;> simp

theorem numInt_fst (s : Scanner) (o : Nat) :
    (s.numInt o).1 = Token.ILLEGAL ∨ (s.numInt o).1 = Token.INT := by
  dsimp only [Scanner.numInt]
  by_cases c1 : s.char ≠ 0x2E
  · rw [if_pos c1]
    by_cases c2 : s.char = 0x30
    · rw [if_pos c2]
      by_cases c3 : s.next.char ≠ 0x2E
      · rw [if_pos c3]
        by_cases c4 : lower s.next.char = 0x78
        · rw [if_pos c4]
          exact numExtra_fst _ _ _
        rw [if_neg c4]
        by_cases c5 : lower s.next.char = 0x62
        · rw [if_pos c5]
          exact numExtra_fst _ _ _
        rw [if_neg c5]
        by_cases c6 : lower s.next.char = 0x6F
        · rw [if_pos c6]
          exact numExtra_fst _ _ _
        rw [if_neg c6]
        left; rfl
      · rw [if_neg c3]
        right; rfl
    · rw [if_neg c2]
      right; rfl
  · rw [if_neg c1]
    right; rfl

theorem scanNumber_token (s : Scanner) :
    (s.scanNumber).1.1 = Token.ILLEGAL ∨ (s.scanNumber).1.1 = Token.INT ∨
    (s.scanNumber).1.1 = Token.FLOAT := by
  dsimp only [Scanner.scanNumber]
  by_cases hf : ((s.numInt s.offset).2).char = 0x2E
  · rw [if_pos hf]
    split_ifs <;> simp
  · rw [if_neg hf]
    rcases numInt_fst s s.offset with h | h <;> simp [h]

theorem scanStep_no_comment (recur : Scanner → ScanResult × Scanner)
    (hrec : ∀ t : Scanner, t.scanComments = false → ((recur t).1).token ≠ Token.COMMENT)
    (s1 : Scanner) (h : s1.scanComments = false) :
    ((Scanner.scanStep recur s1).1).token ≠ Token.COMMENT := by
  dsimp only [Scanner.scanStep]
  by_cases h1 : isLetter s1.char
  · rw [if_pos h1]
    exact Lookup_ne_comment (s1.scanIdentifier).1
  rw [if_neg h1]
  by_cases h2 : isDecimal s1.char ∨ s1.char = 0x2E ∧ isDecimal (s1.peek : Int)
  · rw [if_pos h2]
    rcases scanNumber_token s1 with ht | ht | ht <;> simp [ht]
  rw [if_neg h2]
  by_cases h3 : s1.char = eof
  · rw [if_pos h3]
    simp
  rw [if_neg h3]
  by_cases h4 : s1.char = 0x22
  · rw [if_pos h4]
    simp
  rw [if_neg h4]
  by_cases h5 : s1.char = 0x60
  · rw [if_pos h5]
    simp
  rw [if_neg h5]
  by_cases h6 : s1.char = 0x27
  · rw [if_pos h6]
    simp
  rw [if_neg h6]
  by_cases h7 : s1.char = 0x2E
  · rw [if_pos h7]
    simp
  rw [if_neg h7]
  by_cases h8 : s1.char = 0x2F
  · rw [if_pos h8]
    by_cases h9 : s1.next.char = 0x2F ∨ s1.next.char = 0x2A
    · rw [if_pos h9]
      by_cases h10 : (s1.next.scanComment).2.scanComments = false
      · rw [if_pos h10]
        exact hrec _ (by simp [h])
      · rw [if_neg h10]
        exact absurd (by simp [h] :
            ((s1.next.scanComment).2).scanComments = false) h10
    · rw [if_neg h9]
      simp
  rw [if_neg h8]
  by_cases h11 : s1.char = 0x40
  · rw [if_pos h11]
    by_cases h12 : isLetter s1.next.char
    · rw [if_pos h12]
      simp
    · rw [if_neg h12]
      simp
  rw [if_neg h11]
  simp

theorem ScanAux_no_comment (n : Nat) : ∀ s : Scanner, s.scanComments = false →
    ((s.ScanAux n).1).token ≠ Token.COMMENT := by
  induction n with
  | zero => intro s h; simp [Scanner.ScanAux]
  | succ n ih =>
    intro s h
    simp only [Scanner.ScanAux]
    exact scanStep_no_comment _ ih s.skipWhitespace (by simp [h])

theorem scanComment_literal (s : Scanner) :
    (s.scanComment).1 =
      byteSlice ((s.scanComment).2).src (s.offset - 1) ((s.scanComment).2).offset := by
  dsimp only [Scanner.scanComment]
  split_ifs <;> rfl

theorem scanStep_literal (recur : Scanner → ScanResult × Scanner)
    (hrec : ∀ t : Scanner, ∃ a b, ((recur t).1).literal = byteSlice t.src a b)
    (s1 : Scanner) :
    ∃ a b, ((Scanner.scanStep recur s1).1).literal = byteSlice s1.src a b := by
  dsimp only [Scanner.scanStep]
  by_cases h1 : isLetter s1.char
  · rw [if_pos h1]
    exact ⟨s1.offset, (s1.scanIdentifier).2.offset,
      by rw [← scanIdentifier_src s1]; rfl⟩
  rw [if_neg h1]
  by_cases h2 : isDecimal s1.char ∨ s1.char = 0x2E ∧ isDecimal (s1.peek : Int)
  · rw [if_pos h2]
    exact ⟨s1.offset, (s1.scanNumber).2.offset,
      by rw [← scanNumber_src s1]; rfl⟩
  rw [if_neg h2]
  by_cases h3 : s1.char = eof
  · rw [if_pos h3]
    exact ⟨0, 0, by simp [byteSlice]⟩
  rw [if_neg h3]
  by_cases h4 : s1.char = 0x22
  · rw [if_pos h4]
    exact ⟨s1.next.offset - 1, (s1.next.scanString).2.offset,
      by rw [← next_src s1, ← scanString_src s1.next]; rfl⟩
  rw [if_neg h4]
  by_cases h5 : s1.char = 0x60
  · rw [if_pos h5]
    exact ⟨s1.next.offset - 1, (s1.next.scanRawString).2.offset,
      by rw [← next_src s1, ← scanRawString_src s1.next]; rfl⟩
  rw [if_neg h5]
  by_cases h6 : s1.char = 0x27
  · rw [if_pos h6]
    exact ⟨s1.next.offset - 1, (s1.next.scanChar).2.offset,
      by rw [← next_src s1, ← scanChar_src s1.next]; rfl⟩
  rw [if_neg h6]
  by_cases h7 : s1.char = 0x2E
  · rw [if_pos h7]
    exact ⟨0, 0, by simp [byteSlice]⟩
  rw [if_neg h7]
  by_cases h8 : s1.char = 0x2F
  · rw [if_pos h8]
    by_cases h9 : s1.next.char = 0x2F ∨ s1.next.char = 0x2A
    · rw [if_pos h9]
      by_cases h10 : (s1.next.scanComment).2.scanComments = false
      · rw [if_pos h10]
        obtain ⟨a, b, hab⟩ := hrec (s1.next.scanComment).2
        refine ⟨a, b, ?_⟩
        simpa using hab
      · rw [if_neg h10]
        exact ⟨s1.next.offset - 1, (s1.next.scanComment).2.offset,
          by rw [scanComment_literal s1.next, scanComment_src s1.next, next_src s1]⟩
    · rw [if_neg h9]
      exact ⟨0, 0, by simp [byteSlice]⟩
  rw [if_neg h8]
  by_cases h11 : s1.char = 0x40
  · rw [if_pos h11]
    by_cases h12 : isLetter s1.next.char
    · rw [if_pos h12]
      exact ⟨s1.next.offset, (s1.next.scanIdentifier).2.offset,
        by rw [← next_src s1, ← scanIdentifier_src s1.next]; rfl⟩
    · rw [if_neg h12]
      exact ⟨0, 0, by simp [byteSlice]⟩
  rw [if_neg h11]
  exact ⟨0, 0, by simp [byteSlice]⟩

theorem ScanAux_literal (n : Nat) : ∀ s : Scanner,
    ∃ a b, ((s.ScanAux n).1).literal = byteSlice s.src a b := by
  induction n with
  | zero =>
    intro s
    exact ⟨0, 0, by simp [Scanner.ScanAux, byteSlice]⟩
  | succ n ih =>
    intro s
    simp only [Scanner.ScanAux]
    obtain ⟨a, b, hab⟩ := scanStep_literal _ ih s.skipWhitespace
    rw [skipWhitespace_src] at hab
    exact ⟨a, b, hab⟩

/-! Symbolic evaluation of the escape digit loop over a run of clean
ASCII digit bytes. -/

theorem escLoop_run (base : Nat) :
    ∀ (ds pre post : List Nat) (f : Nat) (s : Scanner) (x : Nat),
    s.src = pre ++ ds ++ f :: post →
    s.offset = pre.length →
    s.readOffset = pre.length + 1 →
    s.char = ((ds.headD f : Nat) : Int) →
    (∀ d ∈ ds, 0 < d ∧ d < 0x80 ∧ digitVal (d : Int) < (base : Int)) →
    0 < f → f < 0x80 →
    s.escLoop ds.length base x =
      ((true, ds.foldl (fun a d => a * base + (digitVal ((d : Nat) : Int)).toNat) x),
       { s with offset := pre.length + ds.length,
                readOffset := pre.length + ds.length + 1,
                char := ((f : Nat) : Int) }) := by
  intro ds
  induction ds with
  | nil =>
    intro pre post f s x hsrc hoff hro hchar hds hf0 hf80
    simp only [List.length_nil, List.foldl_nil, Scanner.escLoop]
    have hs : ({ s with offset := pre.length + 0,
                        readOffset := pre.length + 0 + 1,
                        char := ((f : Nat) : Int) } : Scanner) = s := by
      cases s
      simp only [List.headD] at hchar
      simp_all
    rw [hs]
  | cons d ds ih =>
    intro pre post f s x hsrc hoff hro hchar hds hf0 hf80
    obtain ⟨hd0, hd80, hdv⟩ := hds d (by simp)
    have hchar2 : s.char = ((d : Nat) : Int) := by simpa using hchar
    have hnextb : s.src.getD s.readOffset 0 = ds.headD f := by
      rw [hsrc, hro, List.append_assoc, List.getD_append_right _ _ _ _ (by omega)]
      have h1 : pre.length + 1 - pre.length = 1 := by omega
      rw [h1]
      cases ds <;> simp
    have hrolt : s.readOffset < s.src.length := by
      rw [hro, hsrc]
      simp [List.length_append]
    have hclean0 : 0 < ds.headD f := by
      cases ds with
      | nil => exact hf0
      | cons e es => exact (hds e (by simp)).1
    have hclean80 : ds.headD f < 0x80 := by
      cases ds with
      | nil => exact hf80
      | cons e es => exact (hds e (by simp)).2.1
    have hnext := next_clean s (ds.headD f) hrolt hnextb hclean0 hclean80
    simp only [List.length_cons, Scanner.escLoop]
    rw [if_pos (by rw [hchar2]; exact hdv)]
    rw [hchar2, hnext]
    have hih := ih (pre ++ [d]) post f
      ({ s with offset := s.readOffset, readOffset := s.readOffset + 1,
                char := ((ds.headD f : Nat) : Int) })
      (x * base + (digitVal ((d : Nat) : Int)).toNat)
      (by simpa using hsrc)
      (by simp [hro])
      (by simp [hro])
      (by rfl)
      (fun e he => hds e (by simp [he]))
      hf0 hf80
    rw [hih]
    simp only [List.foldl_cons]
    refine congrArg _ ?_
    cases s
    simp_all
    omega

theorem digitVal_eof : digitVal eof = 16 := by decide

theorem scanDigitsAux_stop (s : Scanner) (base : Nat)
    (h : ¬ digitVal s.char < (base : Int)) :
    ∀ fuel, s.scanDigitsAux fuel base = s := by
  intro fuel
  cases fuel with
  | zero => rfl
  | succ n => simp [Scanner.scanDigitsAux, h]

theorem scanDigitsAux_run (base : Nat) :
    ∀ (ds pre post : List Nat) (f : Nat) (s : Scanner) (fuel : Nat),
    s.src = pre ++ ds ++ f :: post →
    s.offset = pre.length →
    s.readOffset = pre.length + 1 →
    s.char = ((ds.headD f : Nat) : Int) →
    (∀ d ∈ ds, 0 < d ∧ d < 0x80 ∧ digitVal (d : Int) < (base : Int)) →
    0 < f → f < 0x80 →
    ¬ digitVal ((f : Nat) : Int) < (base : Int) →
    ds.length < fuel →
    s.scanDigitsAux fuel base =
      { s with offset := pre.length + ds.length,
               readOffset := pre.length + ds.length + 1,
               char := ((f : Nat) : Int) } := by
  intro ds
  induction ds with
  | nil =>
    intro pre post f s fuel hsrc hoff hro hchar hds hf0 hf80 hfd hfuel
    have hchar2 : s.char = ((f : Nat) : Int) := by simpa using hchar
    rw [scanDigitsAux_stop s base (by rw [hchar2]; exact hfd) fuel]
    cases s
    simp_all
  | cons d ds ih =>
    intro pre post f s fuel hsrc hoff hro hchar hds hf0 hf80 hfd hfuel
    obtain ⟨hd0, hd80, hdv⟩ := hds d (by simp)
    have hchar2 : s.char = ((d : Nat) : Int) := by simpa using hchar
    have hnextb : s.src.getD s.readOffset 0 = ds.headD f := by
      rw [hsrc, hro, List.append_assoc, List.getD_append_right _ _ _ _ (by omega)]
      have h1 : pre.length + 1 - pre.length = 1 := by omega
      rw [h1]
      cases ds <;> simp
    have hrolt : s.readOffset < s.src.length := by
      rw [hro, hsrc]
      simp [List.length_append]
    have hclean0 : 0 < ds.headD f := by
      cases ds with
      | nil => exact hf0
      | cons e es => exact (hds e (by simp)).1
    have hclean80 : ds.headD f < 0x80 := by
      cases ds with
      | nil => exact hf80
      | cons e es => exact (hds e (by simp)).2.1
    have hnext := next_clean s (ds.headD f) hrolt hnextb hclean0 hclean80
    obtain ⟨fuel, rfl⟩ : ∃ n, fuel = n + 1 := by
      cases fuel with
      | zero => omega
      | succ n => exact ⟨n, rfl⟩
    simp only [Scanner.scanDigitsAux]
    rw [if_pos (by rw [hchar2]; exact hdv)]
    rw [hnext]
    have hih := ih (pre ++ [d]) post f
      ({ s with offset := s.readOffset, readOffset := s.readOffset + 1,
                char := ((ds.headD f : Nat) : Int) })
      fuel
      (by simpa using hsrc)
      (by simp [hro])
      (by simp [hro])
      (by rfl)
      (fun e he => hds e (by simp [he]))
      hf0 hf80 hfd (by simpa using hfuel)
    rw [hih]
    cases s
    simp_all
    omega

theorem scanDigitsAux_run_end (base : Nat) (hbase : base ≤ 16) :
    ∀ (ds pre : List Nat) (s : Scanner) (fuel : Nat),
    s.src = pre ++ ds →
    s.offset = pre.length →
    s.readOffset = pre.length + 1 →
    ds ≠ [] →
    s.char = ((ds.headD 0 : Nat) : Int) →
    (∀ d ∈ ds, 0 < d ∧ d < 0x80 ∧ digitVal (d : Int) < (base : Int)) →
    ds.length ≤ fuel →
    s.scanDigitsAux fuel base =
      { s with offset := pre.length + ds.length,
               readOffset := pre.length + ds.length,
               char := eof } := by
  intro ds
  induction ds with
  | nil =>
    intro pre s fuel hsrc hoff hro hne
    exact absurd rfl hne
  | cons d ds ih =>
    intro pre s fuel hsrc hoff hro hne hchar hds hfuel
    obtain ⟨hd0, hd80, hdv⟩ := hds d (by simp)
    have hchar2 : s.char = ((d : Nat) : Int) := by simpa using hchar
    obtain ⟨fuel, rfl⟩ : ∃ n, fuel = n + 1 := by
      cases fuel with
      | zero => simp at hfuel
      | succ n => exact ⟨n, rfl⟩
    simp only [Scanner.scanDigitsAux]
    rw [if_pos (by rw [hchar2]; exact hdv)]
    cases ds with
    | nil =>
      have hnext := next_eof s (by rw [hro, hsrc]; simp)
      rw [hnext]
      have hstop : digitVal (eof : Int) = 16 := digitVal_eof
      rw [scanDigitsAux_stop _ base (by
        show ¬ digitVal eof < (base : Int)
        rw [digitVal_eof]
        push_cast
        omega) fuel]
      cases s
      simp_all
    | cons e es =>
      have hnextb : s.src.getD s.readOffset 0 = e := by
        rw [hsrc, hro, List.getD_append_right _ _ _ _ (by omega)]
        have h1 : pre.length + 1 - pre.length = 1 := by omega
        rw [h1]
        simp
      have hrolt : s.readOffset < s.src.length := by
        rw [hro, hsrc]
        simp
      have hnext := next_clean s e hrolt hnextb (hds e (by simp)).1 (hds e (by simp)).2.1
      rw [hnext]
      have hih := ih (pre ++ [d])
        ({ s with offset := s.readOffset, readOffset := s.readOffset + 1,
                  char := ((e : Nat) : Int) })
        fuel
        (by simpa using hsrc)
        (by simp [hro])
        (by simp [hro])
        (by simp)
        (by rfl)
        (fun e2 he2 => hds e2 (by simp [he2]))
        (by simpa using hfuel)
      rw [hih]
      cases s
      simp_all
      omega

theorem byteSlice_full (l : List Nat) : byteSlice l 0 l.length = l := by
  simp [byteSlice]

theorem NewScanner_clean (b : Nat) (rest : List Nat) (es sc : Bool)
    (fl : List (List Nat)) (h0 : 0 < b) (h80 : b < 0x80) :
    NewScanner (b :: rest) es sc fl =
      { src := b :: rest, errIsSet := es, ErrorCount := 0, scanComments := sc,
        flags := fl, flagStarted := false, char := ((b : Nat) : Int),
        offset := 0, readOffset := 1, errors := [], callbackCalls := [] } := by
  dsimp only [NewScanner]
  have hnext := next_clean
    ({ src := b :: rest, errIsSet := es, ErrorCount := 0, scanComments := sc,
       flags := fl, flagStarted := false, char := 0x20,
       offset := 0, readOffset := 0, errors := [], callbackCalls := [] } : Scanner)
    b (by simp) (by simp) h0 h80
  rw [hnext]
  rw [if_neg (by
    show ¬ ((b : Nat) : Int) = bom
    simp only [bom]
    omega)]

/-! Claim theorems. -/

/-- Claim C1 (code bug in the source): on the input `0x`, which carries
one diagnostic, the scanner increments its error count by exactly one
and keeps scanning (an illegal token is returned, no abort) — but the
caller-supplied error callback is never invoked (its invocation is
commented out in `Scanner.error`), even though a handler was installed:
`callbackCalls` stays empty while `ErrorCount` becomes 1. -/
theorem C1_diagnostic_without_callback :
    (let r := (NewScanner [0x30, 0x78] true true []).Scan
     r.2.ErrorCount = 1 ∧ r.2.errors = [(0, ErrMsg.illegalNumber)] ∧
       r.2.callbackCalls = [] ∧ r.1.token = Token.ILLEGAL) := by
  decide

/-- Claim C2: every literal returned by `Scan` is a verbatim contiguous
slice of the source buffer (round-trip span property), and scanning the
seven-byte buffer `"abc\n"` (a string literal with an escaped newline)
yields a string token whose literal is the whole buffer, backslash-n
kept verbatim, with zero errors. -/
theorem C2_literal_roundtrip :
    (∀ s : Scanner, ∃ a b, ((s.Scan).1).literal = byteSlice s.src a b) ∧
    (let r := (NewScanner [0x22, 0x61, 0x62, 0x63, 0x5C, 0x6E, 0x22] false true []).Scan
     r.1.token = Token.STRING ∧
       r.1.literal = [0x22, 0x61, 0x62, 0x63, 0x5C, 0x6E, 0x22] ∧
       r.2.ErrorCount = 0 ∧ r.2.errors = []) := by
  constructor
  · intro s
    exact ScanAux_literal _ s
  · decide

/-- Claim C3: once the input is exhausted (current code point is the
end-of-input sentinel, both offsets at the end of the buffer — the state
every scan reaches at end of input), each further `Scan` call returns
the end-of-input token with empty literal and leaves the scanner state
unchanged, so the error count never grows; repeated calls forever
return the same. -/
theorem C3_eof_idempotent (s : Scanner) (h1 : s.char = eof)
    (h2 : s.offset = s.src.length) (h3 : s.readOffset = s.src.length) :
    s.Scan = (⟨0, Token.EOF, []⟩, s) := by
  obtain ⟨ht, hs⟩ := Scan_eof s h1
  have hnext : s.next = s := by
    rw [next_eof s (by omega)]
    rw [← h2, ← h1]
  calc s.Scan = ((s.Scan).1, (s.Scan).2) := rfl
    _ = (⟨0, Token.EOF, []⟩, s) := by rw [ht, hs, hnext]

/-- Witness for C3 at a concrete end-of-input state: the scanner on the
empty buffer. -/
theorem C3_eof_idempotent_witness :
    (NewScanner [] false true []).Scan =
      (⟨0, Token.EOF, []⟩, NewScanner [] false true []) :=
  C3_eof_idempotent _ (by decide) (by decide) (by decide)

/-- Counterexample to claim C4: scanning the backquote-delimited raw
string of one character yields a token of the ordinary string kind,
which is distinct from the raw-string kind of the enumeration — the
scanner does not emit the raw-string kind. -/
theorem C4_raw_string_kind_refuted :
    (let r := (NewScanner [0x60, 0x78, 0x60] false true []).Scan
     r.1.token = Token.STRING) ∧ Token.STRING ≠ Token.RAW_STRING := by
  decide

/-- Claim C4 as amended: scanning a backquote-delimited raw string
yields a token of the ordinary string kind (the same kind as
double-quoted strings), with the verbatim literal and no errors. -/
theorem C4_raw_string_token :
    (let r := (NewScanner [0x60, 0x78, 0x60] false true []).Scan
     r.1.token = Token.STRING ∧ r.1.literal = [0x60, 0x78, 0x60] ∧
       r.2.ErrorCount = 0) := by
  decide

/-- Claim C8: when the scanner is constructed with comments suppressed,
no `Scan` call ever returns a comment token (the comment is discarded
and the next token is produced instead): on `// x\nfoo` a single call
yields the identifier token `foo` with zero errors; with comments
enabled the same buffer yields the comment token `// x` and then the
identifier token `foo`. -/
theorem C8_comment_suppression :
    (∀ s : Scanner, s.scanComments = false → ((s.Scan).1).token ≠ Token.COMMENT) ∧
    (let r := (NewScanner [0x2F, 0x2F, 0x20, 0x78, 0x0A, 0x66, 0x6F, 0x6F]
                false false []).Scan
     r.1.token = Token.IDENT ∧ r.1.literal = [0x66, 0x6F, 0x6F] ∧
       r.2.ErrorCount = 0) ∧
    (let r1 := (NewScanner [0x2F, 0x2F, 0x20, 0x78, 0x0A, 0x66, 0x6F, 0x6F]
                 false true []).Scan
     r1.1.token = Token.COMMENT ∧ r1.1.literal = [0x2F, 0x2F, 0x20, 0x78] ∧
       ((r1.2.Scan).1).token = Token.IDENT ∧
       ((r1.2.Scan).1).literal = [0x66, 0x6F, 0x6F] ∧
       ((r1.2.Scan).2).ErrorCount = 0) := by
  refine ⟨fun s h => ScanAux_no_comment _ s h, by decide, by decide⟩

/-- Counterexample to claim C9: on the one-byte buffer `a` the freshly
constructed scanner has a non-eof current code point, yet the `Scan`
call that consumes the identifier does not increase `readOffset` (the
last byte was already pre-read; the call only turns the current code
point into the end-of-input sentinel). -/
theorem C9_readOffset_not_advanced :
    (let s := NewScanner [0x61] false true []
     s.char ≠ eof ∧ ((s.Scan).2).readOffset = s.readOffset) := by
  decide

/-- Claim C9 as amended: every `Scan` call on a scanner whose current
code point is not the end-of-input sentinel strictly decreases the
variant `2*(len src - readOffset) + (1 if char ≠ eof)` — it advances
the read offset or turns the current code point into the sentinel — so
from any state finitely many `Scan` calls reach a state that returns
the end-of-input token (and each `Scan` call terminates, being a total
function). -/
theorem C9_scan_progress_and_termination :
    (∀ s : Scanner, s.char ≠ eof → mu ((s.Scan).2) < mu s) ∧
    (∀ s : Scanner, ∃ n : Nat, ((scanState^[n]) s).char = eof ∧
      ((((scanState^[n]) s).Scan).1).token = Token.EOF) := by
  constructor
  · exact fun s h => Scan_mu_lt s h
  · have main : ∀ m : Nat, ∀ s : Scanner, mu s ≤ m →
        ∃ n : Nat, ((scanState^[n]) s).char = eof ∧
          ((((scanState^[n]) s).Scan).1).token = Token.EOF := by
      intro m
      induction m with
      | zero =>
        intro s hm
        have hch : s.char = eof := by
          by_contra hc
          have : mu s ≠ 0 := by
            unfold mu
            simp [hc]
          omega
        refine ⟨0, ?_, ?_⟩ <;> simp only [Function.iterate_zero_apply]
        · exact hch
        · rw [(Scan_eof s hch).1]
      | succ m ih =>
        intro s hm
        by_cases hc : s.char = eof
        · refine ⟨0, ?_, ?_⟩ <;> simp only [Function.iterate_zero_apply]
          · exact hc
          · rw [(Scan_eof s hc).1]
        · obtain ⟨n, hn⟩ := ih (scanState s) (by
            have := Scan_mu_lt s hc
            unfold scanState
            omega)
          refine ⟨n + 1, ?_⟩
          rwa [Function.iterate_succ_apply]
    exact fun s => main (mu s) s (le_refl _)

/-- Counterexample to claim C10: on the buffer `/` followed by a NUL
byte — a `/` not followed by `/` or `*` — the `Scan` call does return
an illegal token, but the error count changes (loading the follower
raises the NUL diagnostic), contradicting "emitting no diagnostic at
all". -/
theorem C10_slash_nul_diagnostic :
    (let s := NewScanner [0x2F, 0x00] false true []
     ((s.Scan).1).token = Token.ILLEGAL ∧ ((s.Scan).2).ErrorCount = 1 ∧
       ((s.Scan).2).errors = [(1, ErrMsg.illegalNUL)]) := by
  decide

/-- Claim C10 as amended: a `/` not followed by `/` or `*`, and a `.`
not immediately followed by a decimal digit, consume exactly that one
character and return an illegal token with empty literal, and the
dispatch itself emits no diagnostic — the whole state change is the
one-character cursor advance whenever the following byte loads cleanly
(here: non-NUL ASCII); by contrast every other unrecognized byte
produces an `invalid token` diagnostic. -/
theorem C10_lone_slash_dot_dispatch :
    (∀ b : Nat, b < 0x80 → 0 < b → b ≠ 0x2F → b ≠ 0x2A →
      (NewScanner [0x2F, b] false true []).Scan =
        (⟨0, Token.ILLEGAL, []⟩,
         { NewScanner [0x2F, b] false true [] with
             offset := 1, readOffset := 2, char := ((b : Nat) : Int) })) ∧
    (∀ b : Nat, b < 0x80 → 0 < b → ¬ (0x30 ≤ b ∧ b ≤ 0x39) →
      (NewScanner [0x2E, b] false true []).Scan =
        (⟨0, Token.ILLEGAL, []⟩,
         { NewScanner [0x2E, b] false true [] with
             offset := 1, readOffset := 2, char := ((b : Nat) : Int) })) ∧
    (∀ b : Nat, b < 0x80 →
      (0 < b ∧ ¬ isLetter ((b : Nat) : Int) ∧ ¬ isDecimal ((b : Nat) : Int) ∧
        b ≠ 0x20 ∧ b ≠ 0x09 ∧ b ≠ 0x0A ∧ b ≠ 0x0D ∧
        b ≠ 0x22 ∧ b ≠ 0x60 ∧ b ≠ 0x27 ∧ b ≠ 0x2E ∧ b ≠ 0x2F ∧ b ≠ 0x40) →
      (((NewScanner [b] false true []).Scan).2).errors =
        [(1, ErrMsg.invalidToken)]) := by
  refine ⟨by decide, by decide, by decide⟩

/-- Counterexample to claim C5: inside the string literal `"\1x"` the
octal escape has one digit followed by the non-octal character `x`; the
claim says this is valid with no diagnostic, but the scanner emits
exactly one `illegal character %#U in escape sequence` diagnostic (the
digit loop demands exactly 3 octal digits). -/
theorem C5_short_octal_refuted :
    (let r := (NewScanner [0x22, 0x5C, 0x31, 0x78, 0x22] false true []).Scan
     r.1.token = Token.STRING ∧ r.2.ErrorCount = 1 ∧
       r.2.errors = [(3, ErrMsg.illegalCharInEscape 0x78)]) := by
  decide

set_option maxRecDepth 8000 in
/-- Claim C5 as amended: octal escape validation consumes exactly 3
octal digits.  For every value `v < 512`, validating `\` followed by
the three octal digits of `v` (and a closing quote behind them) consumes
exactly the three digits and succeeds iff `v ≤ 255`, a larger value
producing exactly one `invalid Unicode code point` diagnostic; while a
character that is not an octal digit (any non-octal ASCII byte) before
3 digits are consumed makes the escape fail with exactly one
`illegal character in escape sequence` diagnostic. -/
theorem C5_octal_escape :
    (∀ v : Nat, v < 512 →
      (let r := (escState [0x30 + v / 64, 0x30 + v / 8 % 8, 0x30 + v % 8,
                           0x22]).scanEscape 0x22
       r.1 = decide (v ≤ 255) ∧
         r.2.errors = (if v ≤ 255 then [] else
           [(2, ErrMsg.invalidUnicodeCodePoint)]) ∧
         r.2.offset = 5 ∧ r.2.readOffset = 6 ∧ r.2.char = 0x22)) ∧
    (∀ b : Nat, b < 0x80 →
      (0 < b ∧ ¬ (0x30 ≤ b ∧ b ≤ 0x37)) →
      (let r := (escState [0x31, b, 0x22]).scanEscape 0x22
       r.1 = false ∧
         r.2.errors = [(3, ErrMsg.illegalCharInEscape ((b : Nat) : Int))])) := by
  refine ⟨by decide, by decide⟩

/-- Claim C6: a `\u` escape consumes exactly 4 hex digits and a `\U`
escape exactly 8 (the cursor ends loaded on the byte after the digits);
for both, a value above the maximum valid code point or inside the
surrogate range `[0xD800, 0xE000)` is rejected with exactly one
`escape sequence is invalid Unicode code point` diagnostic, any other
value is accepted with no diagnostic; concretely, scanning the string
`"\uD800"` produces exactly that one diagnostic. -/
theorem C6_unicode_escapes :
    (∀ d1 d2 d3 d4 : Nat,
      (∀ d ∈ [d1, d2, d3, d4],
        0 < d ∧ d < 0x80 ∧ digitVal ((d : Nat) : Int) < 16) →
      (let v := (((digitVal ((d1 : Nat) : Int)).toNat * 16 + (digitVal ((d2 : Nat) : Int)).toNat) * 16 + (digitVal ((d3 : Nat) : Int)).toNat) * 16 + (digitVal ((d4 : Nat) : Int)).toNat
       let r := (escState [0x75, d1, d2, d3, d4, 0x22]).scanEscape 0x22
       (r.1 = true ↔ ¬ (v > MaxRune ∨ (0xD800 ≤ v ∧ v < 0xE000))) ∧
       r.2.errors = (if v > MaxRune ∨ (0xD800 ≤ v ∧ v < 0xE000) then
         [(2, ErrMsg.invalidUnicodeCodePoint)] else []) ∧
       r.2.ErrorCount = (if v > MaxRune ∨ (0xD800 ≤ v ∧ v < 0xE000) then 1 else 0) ∧
       r.2.offset = 7 ∧ r.2.readOffset = 8 ∧ r.2.char = 0x22)) ∧
    (∀ d1 d2 d3 d4 d5 d6 d7 d8 : Nat,
      (∀ d ∈ [d1, d2, d3, d4, d5, d6, d7, d8],
        0 < d ∧ d < 0x80 ∧ digitVal ((d : Nat) : Int) < 16) →
      (let v := (((((((digitVal ((d1 : Nat) : Int)).toNat * 16 + (digitVal ((d2 : Nat) : Int)).toNat) * 16 + (digitVal ((d3 : Nat) : Int)).toNat) * 16 + (digitVal ((d4 : Nat) : Int)).toNat) * 16 + (digitVal ((d5 : Nat) : Int)).toNat) * 16 + (digitVal ((d6 : Nat) : Int)).toNat) * 16 + (digitVal ((d7 : Nat) : Int)).toNat) * 16 + (digitVal ((d8 : Nat) : Int)).toNat
       let r := (escState [0x55, d1, d2, d3, d4, d5, d6, d7, d8, 0x22]).scanEscape 0x22
       (r.1 = true ↔ ¬ (v > MaxRune ∨ (0xD800 ≤ v ∧ v < 0xE000))) ∧
       r.2.errors = (if v > MaxRune ∨ (0xD800 ≤ v ∧ v < 0xE000) then
         [(2, ErrMsg.invalidUnicodeCodePoint)] else []) ∧
       r.2.ErrorCount = (if v > MaxRune ∨ (0xD800 ≤ v ∧ v < 0xE000) then 1 else 0) ∧
       r.2.offset = 11 ∧ r.2.readOffset = 12 ∧ r.2.char = 0x22)) ∧
    (let r := (NewScanner [0x22, 0x5C, 0x75, 0x44, 0x38, 0x30, 0x30, 0x22]
                false true []).Scan
     r.1.token = Token.STRING ∧ r.2.ErrorCount = 1 ∧
       r.2.errors = [(2, ErrMsg.invalidUnicodeCodePoint)]) := by
  refine ⟨?_, ?_, by decide⟩
  · intro d1 d2 d3 d4 hds
    simp only [escState, List.headD_cons, List.cons_append, List.nil_append]
    dsimp only [Scanner.scanEscape]
    rw [if_neg (by decide), if_neg (by decide), if_neg (by decide), if_pos (by decide)]
    have hnext : ((⟨[0x22, 0x5C, 0x75, d1, d2, d3, d4, 0x22], false, 0, true, [], false, ((0x75 : Nat) : Int), 2, 3, [], []⟩ : Scanner)).next = (⟨[0x22, 0x5C, 0x75, d1, d2, d3, d4, 0x22], false, 0, true, [], false, ((d1 : Nat) : Int), 3, 4, [], []⟩ : Scanner) := by
      rw [next_clean _ d1 (by simp) (by simp)
          (hds d1 (by simp)).1 (hds d1 (by simp)).2.1]
    rw [hnext]
    have hrun := escLoop_run 16 [d1, d2, d3, d4] [0x22, 0x5C, 0x75] []
      0x22 (⟨[0x22, 0x5C, 0x75, d1, d2, d3, d4, 0x22], false, 0, true, [], false, ((d1 : Nat) : Int), 3, 4, [], []⟩ : Scanner) 0
      (by simp)
      (by simp)
      (by simp)
      (by simp)
      (by simpa using hds)
      (by decide) (by decide)
    simp only [List.length_cons, List.length_nil] at hrun
    norm_num at hrun
    dsimp only [Scanner.escFinish]
    rw [hrun]
    simp only [gt_iff_lt, eq_self_iff_true, if_true]
    split_ifs with hcond
    · refine ⟨?_, ?_, ?_, ?_, ?_, ?_⟩ <;> simp [hcond, Scanner.error] <;> try omega
    · refine ⟨?_, ?_, ?_, ?_, ?_, ?_⟩ <;> simp [hcond, Scanner.error] <;> try omega
  · intro d1 d2 d3 d4 d5 d6 d7 d8 hds
    simp only [escState, List.headD_cons, List.cons_append, List.nil_append]
    dsimp only [Scanner.scanEscape]
    rw [if_neg (by decide), if_neg (by decide), if_neg (by decide), if_neg (by decide), if_pos (by decide)]
    have hnext : ((⟨[0x22, 0x5C, 0x55, d1, d2, d3, d4, d5, d6, d7, d8, 0x22], false, 0, true, [], false, ((0x55 : Nat) : Int), 2, 3, [], []⟩ : Scanner)).next = (⟨[0x22, 0x5C, 0x55, d1, d2, d3, d4, d5, d6, d7, d8, 0x22], false, 0, true, [], false, ((d1 : Nat) : Int), 3, 4, [], []⟩ : Scanner) := by
      rw [next_clean _ d1 (by simp) (by simp)
          (hds d1 (by simp)).1 (hds d1 (by simp)).2.1]
    rw [hnext]
    have hrun := escLoop_run 16 [d1, d2, d3, d4, d5, d6, d7, d8] [0x22, 0x5C, 0x55] []
      0x22 (⟨[0x22, 0x5C, 0x55, d1, d2, d3, d4, d5, d6, d7, d8, 0x22], false, 0, true, [], false, ((d1 : Nat) : Int), 3, 4, [], []⟩ : Scanner) 0
      (by simp)
      (by simp)
      (by simp)
      (by simp)
      (by simpa using hds)
      (by decide) (by decide)
    simp only [List.length_cons, List.length_nil] at hrun
    norm_num at hrun
    dsimp only [Scanner.escFinish]
    rw [hrun]
    simp only [gt_iff_lt, eq_self_iff_true, if_true]
    split_ifs with hcond
    · refine ⟨?_, ?_, ?_, ?_, ?_, ?_⟩ <;> simp [hcond, Scanner.error] <;> try omega
    · refine ⟨?_, ?_, ?_, ?_, ?_, ?_⟩ <;> simp [hcond, Scanner.error] <;> try omega

theorem decimalByte_digit (d : Nat) (h1 : 0x30 ≤ d) (h2 : d ≤ 0x39) :
    0 < d ∧ d < 0x80 ∧ digitVal ((d : Nat) : Int) < ((10 : Nat) : Int) := by
  refine ⟨by omega, by omega, ?_⟩
  simp only [digitVal]
  rw [if_pos ⟨by exact_mod_cast h1, by exact_mod_cast h2⟩]
  push_cast
  omega

theorem numInt_decimal (s : Scanner) (o : Nat) (h1 : isDecimal s.char)
    (h2 : ¬ s.char = 0x30) :
    s.numInt o = (Token.INT, s.scanDigits 10) := by
  dsimp only [Scanner.numInt]
  rw [if_pos (show ¬ s.char = 0x2E by
    rcases h1 with ⟨a, b⟩
    omega)]
  rw [if_neg h2]

theorem scanNumber_trailing_dot (d0 : Nat) (dr : List Nat)
    (hd0 : 0x31 ≤ d0 ∧ d0 ≤ 0x39)
    (hdr : ∀ d ∈ dr, 0x30 ≤ d ∧ d ≤ 0x39) :
    ((numState ((d0 :: dr) ++ [0x2E])).scanNumber).1.1 = Token.ILLEGAL ∧
    ((numState ((d0 :: dr) ++ [0x2E])).scanNumber).1.2 = (d0 :: dr) ++ [0x2E] ∧
    ((numState ((d0 :: dr) ++ [0x2E])).scanNumber).2.errors =
      [(0, ErrMsg.floatNoDigitsAfterPoint)] ∧
    ((numState ((d0 :: dr) ++ [0x2E])).scanNumber).2.ErrorCount = 1 := by
  simp only [numState, List.headD_cons, List.cons_append]
  dsimp only [Scanner.scanNumber]
  rw [numInt_decimal (⟨d0 :: (dr ++ [0x2E]), false, 0, true, [], false, ((d0 : Nat) : Int), 0, 1, [], []⟩ : Scanner) 0
      (show isDecimal ((d0 : Nat) : Int) by
        simp only [isDecimal]
        omega)
      (show ¬ ((d0 : Nat) : Int) = 0x30 by omega)]
  dsimp only [Scanner.scanDigits]
  have hrun := scanDigitsAux_run 10 (d0 :: dr) [] [] 0x2E
    (⟨d0 :: (dr ++ [0x2E]), false, 0, true, [], false, ((d0 : Nat) : Int), 0, 1, [], []⟩ : Scanner) (mu (⟨d0 :: (dr ++ [0x2E]), false, 0, true, [], false, ((d0 : Nat) : Int), 0, 1, [], []⟩ : Scanner) + 1)
    (by simp)
    (by simp)
    (by simp)
    (by simp)
    (fun d hd => by
      rcases List.mem_cons.mp hd with rfl | h
      · exact decimalByte_digit d (by omega) (by omega)
      · exact decimalByte_digit d (hdr d h).1 (hdr d h).2)
    (by decide) (by decide) (by decide)
    (by
      simp only [mu, eof, List.length_cons, List.length_append]
      rw [if_neg (by omega)]
      simp
      omega)
  simp only [List.length_nil, List.length_cons] at hrun
  norm_num at hrun
  rw [hrun]
  rw [if_pos (by norm_num)]
  rw [next_eof _ (by simp)]
  dsimp only [Scanner.scanDigits]
  rw [scanDigitsAux_stop _ 10 (by
    show ¬ digitVal eof < ((10 : Nat) : Int)
    decide) _]
  rw [if_pos (by push_cast; simp)]
  refine ⟨rfl, ?_, ?_, ?_⟩
  · show byteSlice (d0 :: (dr ++ [0x2E])) 0 ((d0 :: (dr ++ [0x2E])).length) =
      d0 :: (dr ++ [0x2E])
    exact byteSlice_full _
  · simp [Scanner.error]
  · simp [Scanner.error]

theorem scanNumber_float_run (d0 : Nat) (dr : List Nat) (f0 : Nat) (fr : List Nat)
    (hd0 : 0x31 ≤ d0 ∧ d0 ≤ 0x39)
    (hdr : ∀ d ∈ dr, 0x30 ≤ d ∧ d ≤ 0x39)
    (hf : ∀ d ∈ f0 :: fr, 0x30 ≤ d ∧ d ≤ 0x39) :
    ((numState ((d0 :: dr) ++ 0x2E :: f0 :: fr)).scanNumber).1.1 = Token.FLOAT ∧
    ((numState ((d0 :: dr) ++ 0x2E :: f0 :: fr)).scanNumber).1.2 =
      (d0 :: dr) ++ 0x2E :: f0 :: fr ∧
    ((numState ((d0 :: dr) ++ 0x2E :: f0 :: fr)).scanNumber).2.errors = [] ∧
    ((numState ((d0 :: dr) ++ 0x2E :: f0 :: fr)).scanNumber).2.ErrorCount = 0 := by
  simp only [numState, List.headD_cons, List.cons_append]
  dsimp only [Scanner.scanNumber]
  rw [numInt_decimal (⟨d0 :: (dr ++ 0x2E :: f0 :: fr), false, 0, true, [], false, ((d0 : Nat) : Int), 0, 1, [], []⟩ : Scanner) 0
      (show isDecimal ((d0 : Nat) : Int) by
        simp only [isDecimal]
        omega)
      (show ¬ ((d0 : Nat) : Int) = 0x30 by omega)]
  dsimp only [Scanner.scanDigits]
  have hrun := scanDigitsAux_run 10 (d0 :: dr) [] (f0 :: fr) 0x2E
    (⟨d0 :: (dr ++ 0x2E :: f0 :: fr), false, 0, true, [], false, ((d0 : Nat) : Int), 0, 1, [], []⟩ : Scanner) (mu (⟨d0 :: (dr ++ 0x2E :: f0 :: fr), false, 0, true, [], false, ((d0 : Nat) : Int), 0, 1, [], []⟩ : Scanner) + 1)
    (by simp)
    (by simp)
    (by simp)
    (by simp)
    (fun d hd => by
      rcases List.mem_cons.mp hd with rfl | h
      · exact decimalByte_digit d (by omega) (by omega)
      · exact decimalByte_digit d (hdr d h).1 (hdr d h).2)
    (by decide) (by decide) (by decide)
    (by
      simp only [mu, eof, List.length_cons, List.length_append]
      rw [if_neg (by omega)]
      simp
      omega)
  simp only [List.length_nil, List.length_cons] at hrun
  norm_num at hrun
  rw [hrun]
  rw [if_pos (by norm_num)]
  have hnext : ((⟨d0 :: (dr ++ 0x2E :: f0 :: fr), false, 0, true, [], false, (46 : Int), dr.length + 1, dr.length + 1 + 1, [], []⟩ : Scanner)).next = (⟨d0 :: (dr ++ 0x2E :: f0 :: fr), false, 0, true, [], false, ((f0 : Nat) : Int), dr.length + 1 + 1, dr.length + 1 + 1 + 1, [], []⟩ : Scanner) := by
    rw [next_clean _ f0
      (by simp)
      (by
        show (d0 :: (dr ++ 0x2E :: f0 :: fr)).getD (dr.length + 1 + 1) 0 = f0
        rw [show d0 :: (dr ++ 0x2E :: f0 :: fr) =
          ((d0 :: dr) ++ [0x2E]) ++ f0 :: fr by simp]
        rw [List.getD_append_right _ _ _ _ (by simp)]
        simp)
      (by have := hf f0 (by simp); omega)
      (by have := hf f0 (by simp); omega)]
  rw [hnext]
  dsimp only [Scanner.scanDigits]
  have hrun2 := scanDigitsAux_run_end 10 (by norm_num) (f0 :: fr)
    ((d0 :: dr) ++ [0x2E]) (⟨d0 :: (dr ++ 0x2E :: f0 :: fr), false, 0, true, [], false, ((f0 : Nat) : Int), dr.length + 1 + 1, dr.length + 1 + 1 + 1, [], []⟩ : Scanner) (mu (⟨d0 :: (dr ++ 0x2E :: f0 :: fr), false, 0, true, [], false, ((f0 : Nat) : Int), dr.length + 1 + 1, dr.length + 1 + 1 + 1, [], []⟩ : Scanner) + 1)
    (by simp)
    (by simp)
    (by simp)
    (by simp)
    (by simp)
    (fun d hd => decimalByte_digit d (hf d hd).1 (hf d hd).2)
    (by
      simp only [mu, eof, List.length_cons, List.length_append]
      rw [if_neg (by omega)]
      simp
      omega)
  simp only [List.length_cons, List.length_append, List.length_nil] at hrun2
  norm_num at hrun2
  rw [hrun2]
  rw [if_neg (by push_cast; omega)]
  refine ⟨rfl, ?_, ?_, ?_⟩
  · simp only [byteSlice, List.drop_zero, Nat.sub_zero]
    rw [List.take_of_length_le (by simp; omega)]
  · rfl
  · rfl

/-- Claim C7: after a decimal number's integer part, a `.` switches to
float scanning: the dot and the following run of decimal digits are
consumed and the literal covers the whole span; with at least one digit
after the dot the token is FLOAT with no diagnostic, and with zero
digits after the dot exactly one "float has no digits after ."
diagnostic is emitted and the token is ILLEGAL. Concretely, "3.14"
scans to a FLOAT token with literal "3.14" and zero errors, and "3."
scans to an ILLEGAL token with that single diagnostic. -/
theorem C7_float_scanning :
    (∀ (d0 : Nat) (dr : List Nat), 0x31 ≤ d0 ∧ d0 ≤ 0x39 →
      (∀ d ∈ dr, 0x30 ≤ d ∧ d ≤ 0x39) →
      ((numState ((d0 :: dr) ++ [0x2E])).scanNumber).1.1 = Token.ILLEGAL ∧
      ((numState ((d0 :: dr) ++ [0x2E])).scanNumber).1.2 = (d0 :: dr) ++ [0x2E] ∧
      ((numState ((d0 :: dr) ++ [0x2E])).scanNumber).2.errors =
        [(0, ErrMsg.floatNoDigitsAfterPoint)] ∧
      ((numState ((d0 :: dr) ++ [0x2E])).scanNumber).2.ErrorCount = 1) ∧
    (∀ (d0 : Nat) (dr : List Nat) (f0 : Nat) (fr : List Nat),
      0x31 ≤ d0 ∧ d0 ≤ 0x39 →
      (∀ d ∈ dr, 0x30 ≤ d ∧ d ≤ 0x39) →
      (∀ d ∈ f0 :: fr, 0x30 ≤ d ∧ d ≤ 0x39) →
      ((numState ((d0 :: dr) ++ 0x2E :: f0 :: fr)).scanNumber).1.1 = Token.FLOAT ∧
      ((numState ((d0 :: dr) ++ 0x2E :: f0 :: fr)).scanNumber).1.2 =
        (d0 :: dr) ++ 0x2E :: f0 :: fr ∧
      ((numState ((d0 :: dr) ++ 0x2E :: f0 :: fr)).scanNumber).2.errors = [] ∧
      ((numState ((d0 :: dr) ++ 0x2E :: f0 :: fr)).scanNumber).2.ErrorCount = 0) ∧
    (let r := (NewScanner [0x33, 0x2E, 0x31, 0x34] false true []).Scan
     r.1.token = Token.FLOAT ∧ r.1.literal = [0x33, 0x2E, 0x31, 0x34] ∧
       r.2.ErrorCount = 0 ∧ r.2.errors = []) ∧
    (let r := (NewScanner [0x33, 0x2E] false true []).Scan
     r.1.token = Token.ILLEGAL ∧ r.1.literal = [0x33, 0x2E] ∧
       r.2.errors = [(0, ErrMsg.floatNoDigitsAfterPoint)] ∧ r.2.ErrorCount = 1) := by
  refine ⟨?_, ?_, by decide, by decide⟩
  · exact fun d0 dr hd0 hdr => scanNumber_trailing_dot d0 dr hd0 hdr
  · exact fun d0 dr f0 fr hd0 hdr hf => scanNumber_float_run d0 dr f0 fr hd0 hdr hf
